import Mathlib

/-!
# A verification model of the glTFVariantMeld core

This file gives a shallow embedding, in Lean 4, of the meld engine of the
glTFVariantMeld repository (`src/native/src`), and proves properties of that
embedding.

Modelling conventions, applied throughout:

* Rust `f64` fingerprint values are modelled as exact rationals (`ℚ`); the
  tolerance `EPS_FINGERPRINT = 1e-6` is the exact rational `1/1000000`.
  Fingerprints are carried as part of `WorkAsset` state (as in the source);
  the floating-point accessor decoding that produces them is outside the
  model, constrained only by the separation check construction performs.
* Rust `HashMap<Tag, MeldKey>` is modelled as an association list
  (`List (Tag × MeldKey)`); the list order stands for the map's iteration
  order, which Rust's `HashMap` (`RandomState`) does not determine from the
  input.  `HashSet<usize>` is modelled as a duplicate-free list built with
  insert-if-absent.
* Rust functions that can panic (slice indexing out of range, `unwrap`,
  `assert_that!`) are modelled with `Option` (`none` = the Rust code panics)
  or with the three-valued `RResult` (`.panic` = the Rust code panics,
  `.err` = the Rust code returns `Err`).
* Scalar material / sampler attributes that matter only through their
  deterministic `format!("{:?}", …)` rendering in meld keys are carried as
  their rendered `String`s.
* The SHA-1 digest of the external `sha1` crate is treated as an arbitrary
  deterministic function of the image's byte payload, passed as an explicit
  parameter where needed (`key_trait.rs` feeds it nothing but the bytes).
-/

namespace GVM

/-- `Tag` is a short string naming a variant (src/native/src/lib.rs). -/
abbrev Tag := String

/-- `MeldKey` is a content-derived identity string (src/native/src/meld_keys). -/
abbrev MeldKey := String

/-- `Fingerprint` is an `f64` in the source (src/native/src/meld_keys/mod.rs);
modelled as an exact rational. -/
abbrev Fingerprint := ℚ

/-- `EPS_FINGERPRINT = 1e-6` (src/native/src/work_asset/mod.rs). -/
def EPS_FINGERPRINT : ℚ := 1 / 1000000

/-- The tolerance test `(x - y).abs() < EPS_FINGERPRINT`, computed on the
numerators and denominators directly (`fingerprintClose_iff` proves it equal
to `|x - y| < EPS_FINGERPRINT`). -/
def fingerprintClose (x y : Fingerprint) : Bool :=
  1000000 * (x.num * (y.den : Int) - y.num * (x.den : Int)).natAbs < x.den * y.den

/-- Three-valued outcome of Rust code that may return `Ok`, return `Err`,
or panic (`assert_that!`, `unwrap`, out-of-range indexing, `panic!`). -/
inductive RResult (α : Type) where
  | ok (val : α)
  | err (msg : String)
  | panic (msg : String)
  deriving DecidableEq, Repr

/-- Extract the `ok` payload, with a fallback. -/
def RResult.getOk {α : Type} (d : α) : RResult α → α
  | .ok v => v
  | .err _ => d
  | .panic _ => d

/-! ## Association-list model of `HashMap<Tag, MeldKey>`

The source only ever inserts a key after checking `contains_key`, so the map
never overwrites; insertion is modelled as appending the new pair. -/

/-- The per-primitive variant mapping `HashMap<Tag, MeldKey>`. -/
abbrev VariantMap := List (Tag × MeldKey)

/-- `HashMap::contains_key`. -/
def vmContains (m : VariantMap) (t : Tag) : Bool := m.any (fun e => e.1 == t)

/-- `HashMap::index` (`map[tag]`), used by the source only on present keys. -/
def vmGet (m : VariantMap) (t : Tag) : MeldKey :=
  (((m.find? (fun e => e.1 == t))).map Prod.snd).getD ""

/-- `HashMap::insert`, used by the source only on absent keys. -/
def vmInsert (m : VariantMap) (t : Tag) (k : MeldKey) : VariantMap := m ++ [(t, k)]

/-! ## Small list utilities mirroring Rust iterator idioms -/

/-- `iter().position(|k| k == key)` on a key table. -/
def listFindIdx (key : MeldKey) : List MeldKey → Option Nat
  | [] => none
  | k :: ks => if k = key then some 0 else (listFindIdx key ks).map (· + 1)

/-- `iter().enumerate()` starting at `i`. -/
def enumFromN {α : Type} (i : Nat) : List α → List (Nat × α)
  | [] => []
  | x :: xs => (i, x) :: enumFromN (i + 1) xs

/-- `iter().enumerate()`. -/
def enumL {α : Type} (xs : List α) : List (Nat × α) := enumFromN 0 xs

/-! ## GLB container (src/native/src/glb.rs) -/

/-- `GLB_MAGIC`: the ASCII bytes of "glTF". -/
def GLB_MAGIC : List Nat := [103, 108, 84, 70]

/-- A `u32` rendered as its four little-endian bytes (`to_le_bytes`). -/
def u32le (n : Nat) : List Nat :=
  [n % 256, n / 256 % 256, n / 2 ^ 16 % 256, n / 2 ^ 24 % 256]

/-- The chunk-padding loop: push the pad byte until the length is a multiple
of four (`while (chunk_bytes.len() % 4) != 0`). -/
def padChunk (pad : Nat) (bytes : List Nat) : List Nat :=
  bytes ++ List.replicate ((4 - bytes.length % 4) % 4) pad

/-- `append_chunk` of `GlbChunk::to_bytes`: a chunk with non-empty payload is
padded and emitted as length, type magic, payload; an empty payload emits
nothing at all. -/
def appendChunk (acc : List Nat) (isJson : Bool) (payload : List Nat) : List Nat :=
  if payload.length > 0 then
    let chunkBytes := padChunk (if isJson then 32 else 0) payload
    acc ++ u32le chunkBytes.length ++
      u32le (if isJson then 0x4E4F534A else 0x004E4942) ++ chunkBytes
  else acc

/-- `GlbChunk::to_bytes` on a JSON chunk and an optional BIN chunk.  The two
`Err` branches of the source guard against mistyped chunk arguments, which the
typed parameters here cannot express, so the result is the byte vector
directly.  Note the final patch loop `for i in 0..3` writes only the first
three bytes of the little-endian total length over the placeholder. -/
def glbToBytes (json : List Nat) (bin : Option (List Nat)) : List Nat :=
  let header := GLB_MAGIC ++ u32le 2 ++ u32le 0
  let withJson := appendChunk header true json
  let withBin :=
    match bin with
    | some b => appendChunk withJson false b
    | none => withJson
  let lenBytes := u32le withBin.length
  ((withBin.set 8 (lenBytes.getD 0 0)).set 9 (lenBytes.getD 1 0)).set 10 (lenBytes.getD 2 0)

/-! ## URI scheme handling (src/native/src/work_asset/construct.rs, `read_from_uri`)

`read_from_uri` maps the URI to a filesystem path; a URI holding a `:` that is
neither `file://` nor `file:` hits `panic!("Can only handle file:// URIs yet.")`.
The filesystem read itself is outside the model; `none` marks the panic. -/

/-- Character-list prefix test (kernel-computable `str.starts_with`). -/
def listIsPrefix : List Char → List Char → Bool
  | [], _ => true
  | _ :: _, [] => false
  | a :: as, b :: bs => a == b && listIsPrefix as bs

/-- `uri.starts_with(p)` on the underlying character lists. -/
def strStartsWith (uri p : String) : Bool := listIsPrefix p.toList uri.toList

/-- The scheme dispatch of `read_from_uri`: the path the file would be read
from, or `none` when the Rust code panics on an unsupported scheme. -/
def readFromUriPath (uri : String) : Option String :=
  if uri.toList.any (· == ':') then
    if strStartsWith uri "file://" then some (uri.drop "file://".length)
    else if strStartsWith uri "file:" then some (uri.drop "file:".length)
    else none
  else some uri

/-! ## The materials-variants extension (src/native/src/extension) -/

/-- The extension slot name used by `install` and the root codec. -/
def FB_MATERIAL_VARIANTS : String := "FB_material_variants"

/-- `extension::install`: add the extension name to `extensions_used` unless
already present (src/native/src/extension/mod.rs). -/
def install (extensionsUsed : List String) : List String :=
  if FB_MATERIAL_VARIANTS ∈ extensionsUsed then extensionsUsed
  else extensionsUsed ++ [FB_MATERIAL_VARIANTS]

/-- The parsed payload of the `FB_material_variants` root extension
(src/native/src/extension/on_root.rs). -/
structure FBMaterialVariantRootExtension where
  default_tag : Tag
  deriving DecidableEq, Repr

/-- `get_root_extension`, on an already-JSON-parsed extension slot: an absent
slot yields `Ok(None)`; a present slot with an empty `default_tag` is an
error.  (The `Bad JSON` branch guards serde failures, which the parsed
representation cannot express.) -/
def get_root_extension (ext : Option FBMaterialVariantRootExtension) :
    Except String (Option FBMaterialVariantRootExtension) :=
  match ext with
  | some parse =>
    if parse.default_tag ≠ "" then .ok (some parse)
    else .error "Missing default_tag in FB_material_variants root extension."
  | none => .ok none

/-- `get_tag_from_extension`. -/
def get_tag_from_extension (ext : Option FBMaterialVariantRootExtension) :
    Except String (Option Tag) :=
  (get_root_extension ext).map (fun o => o.map (fun e => e.default_tag))

/-- `get_validated_extension_tag` (src/native/src/extension/on_root.rs):
reconcile the caller-supplied tag argument with the in-document tag. -/
def get_validated_extension_tag (ext : Option FBMaterialVariantRootExtension)
    (default_tag : Option Tag) : Except String Tag :=
  match get_tag_from_extension ext with
  | .error e => .error e
  | .ok extension_tag =>
    match default_tag with
    | none =>
      match extension_tag with
      | some t => .ok t
      | none => .error "No default tag provided, and none found in asset."
    | some d =>
      match extension_tag with
      | some t =>
        if t = d then .ok d
        else .error s!"Provided tag ({d}) does not match extension tag ({t})."
      | none => .ok d

/-! ## glTF object model

Only the fields the meld engine reads are carried.  Scalar attributes that
enter meld keys solely through their `format!("{:?}", …)` rendering are
carried as rendered strings. -/

/-- A glTF buffer view: a byte range of the single blob. -/
structure BufferView where
  byteOffset : Option Nat
  byteLength : Nat
  deriving DecidableEq, Repr

/-- A glTF image: a buffer view of encoded bytes plus MIME/URI metadata. -/
structure Image where
  bufferView : Option Nat
  mimeType : Option String
  uri : Option String
  deriving DecidableEq, Repr

/-- A glTF sampler; the four attributes are carried as their `{:?}` renderings. -/
structure Sampler where
  magFilter : String
  minFilter : String
  wrapS : String
  wrapT : String
  deriving DecidableEq, Repr

/-- A glTF texture: an optional sampler index and an image (source) index. -/
structure Texture where
  sampler : Option Nat
  source : Nat
  deriving DecidableEq, Repr

/-- A plain texture reference (`texture::Info`). -/
structure TexInfo where
  index : Nat
  texCoord : Nat
  deriving DecidableEq, Repr

/-- A normal-texture reference with its scale (rendered). -/
structure NormalTexture where
  index : Nat
  texCoord : Nat
  scale : String
  deriving DecidableEq, Repr

/-- An occlusion-texture reference with its strength (rendered). -/
structure OcclusionTexture where
  index : Nat
  texCoord : Nat
  strength : String
  deriving DecidableEq, Repr

/-- The PBR metallic-roughness block of a material. -/
structure PbrMetallicRoughness where
  baseColorFactor : String
  baseColorTexture : Option TexInfo
  metallicFactor : String
  roughnessFactor : String
  metallicRoughnessTexture : Option TexInfo
  deriving DecidableEq, Repr

/-- A glTF material with its five possible texture slots. -/
structure Material where
  pbrMetallicRoughness : PbrMetallicRoughness
  normalTexture : Option NormalTexture
  occlusionTexture : Option OcclusionTexture
  emissiveTexture : Option TexInfo
  emissiveFactor : String
  alphaMode : String
  alphaCutoff : String
  doubleSided : Bool
  deriving DecidableEq, Repr

/-- A mesh primitive; only the default material reference is relevant here
(the parsed tag→material data lives in `mesh_primitive_variants`). -/
structure Primitive where
  material : Option Nat
  deriving DecidableEq, Repr

/-- A glTF mesh: an optional name and its primitives. -/
structure Mesh where
  name : Option String
  primitives : List Primitive
  deriving DecidableEq, Repr

/-- Fallback values standing for Rust's out-of-bounds indexing panics; the
claims only exercise in-range accesses. -/
def defaultMesh : Mesh := { name := none, primitives := [] }

/-- Fallback primitive (see `defaultMesh`). -/
def defaultPrimitive : Primitive := { material := none }

/-- Fallback material (see `defaultMesh`); stands for Rust's out-of-bounds
indexing panic in `materials()[ix]`. -/
def defaultMaterial : Material :=
  { pbrMetallicRoughness :=
      { baseColorFactor := ""
        baseColorTexture := none
        metallicFactor := ""
        roughnessFactor := ""
        metallicRoughnessTexture := none }
    normalTexture := none
    occlusionTexture := none
    emissiveTexture := none
    emissiveFactor := ""
    alphaMode := ""
    alphaCutoff := ""
    doubleSided := false }

/-! ## WorkAsset (src/native/src/work_asset/mod.rs) -/

/-- The in-memory melding representation: document content, blob, default
tag, per-primitive tag→material-key maps, key tables and fingerprints. -/
structure WorkAsset where
  images : List Image
  samplers : List Sampler
  textures : List Texture
  materials : List Material
  meshes : List Mesh
  bufferViews : List BufferView
  extensionsUsed : List String
  rootExtension : Option FBMaterialVariantRootExtension
  blob : List Nat
  default_tag : Tag
  mesh_primitive_variants : List (List VariantMap)
  image_keys : List MeldKey
  material_keys : List MeldKey
  mesh_keys : List MeldKey
  sampler_keys : List MeldKey
  texture_keys : List MeldKey
  mesh_primitive_fingerprints : List (List Fingerprint)
  deriving DecidableEq, Repr

namespace WorkAsset

/-- `mesh_ix`: position of a key in the mesh key table. -/
def mesh_ix (a : WorkAsset) (key : MeldKey) : Option Nat := listFindIdx key a.mesh_keys

/-- `material_ix`: position of a key in the material key table. -/
def material_ix (a : WorkAsset) (key : MeldKey) : Option Nat := listFindIdx key a.material_keys

/-- `image_ix`: position of a key in the image key table. -/
def image_ix (a : WorkAsset) (key : MeldKey) : Option Nat := listFindIdx key a.image_keys

/-- `sampler_ix`: position of a key in the sampler key table. -/
def sampler_ix (a : WorkAsset) (key : MeldKey) : Option Nat := listFindIdx key a.sampler_keys

/-- `texture_ix`: position of a key in the texture key table. -/
def texture_ix (a : WorkAsset) (key : MeldKey) : Option Nat := listFindIdx key a.texture_keys

/-- `variant_mapping(m_ix, p_ix)`; Rust indexes the table directly. -/
def variant_mapping (a : WorkAsset) (m p : Nat) : VariantMap :=
  (a.mesh_primitive_variants.getD m []).getD p []

/-- The mesh at an index (Rust `meshes()[ix]`). -/
def meshAt (a : WorkAsset) (m : Nat) : Mesh := a.meshes.getD m defaultMesh

/-- The primitive at a mesh/primitive index pair. -/
def primAt (a : WorkAsset) (m p : Nat) : Primitive :=
  (a.meshAt m).primitives.getD p defaultPrimitive

/-- The fingerprint at a mesh/primitive index pair. -/
def fingerprintAt (a : WorkAsset) (m p : Nat) : Fingerprint :=
  (a.mesh_primitive_fingerprints.getD m []).getD p 0

/-- `find_almost_equal_fingerprint`: the first primitive of the mesh whose
fingerprint lies within `EPS_FINGERPRINT` of `print`, skipping `exclude_ix`.
The tolerance test `(a - b).abs() < EPS_FINGERPRINT` is computed by
`fingerprintClose` (proved equivalent in `fingerprintClose_iff`). -/
def find_almost_equal_fingerprint (a : WorkAsset) (mesh_ix : Nat)
    (print : Fingerprint) (exclude_ix : Option Nat) : Option Nat :=
  ((enumL (a.mesh_primitive_fingerprints.getD mesh_ix [])).find? fun e =>
      (exclude_ix ≠ some e.1 : Bool) && fingerprintClose e.2 print).map
    Prod.fst

/-- The slice of the blob a buffer view denotes; `none` when Rust's slice
indexing would panic. -/
def buffer_view_as_slice (a : WorkAsset) (v : BufferView) : Option (List Nat) :=
  let start := v.byteOffset.getD 0
  if start + v.byteLength ≤ a.blob.length then
    some ((a.blob.drop start).take v.byteLength)
  else none

/-- `read_image_bytes`: the raw encoded bytes of an image, read through its
buffer view.  A missing view or unresolvable view index is the source's
`Err`; an out-of-range slice is a panic. -/
def read_image_bytes (a : WorkAsset) (img : Image) : RResult (List Nat) :=
  match img.bufferView with
  | some vix =>
    match a.bufferViews.get? vix with
    | some v =>
      match a.buffer_view_as_slice v with
      | some s => .ok s
      | none => .panic "image buffer view slice out of range"
    | none => .err "Internal error: Image with a URI field?!"
  | none => .err "Internal error: Image with a URI field?!"

/-- `add_buffer_view_from_slice` (src/native/src/gltfext.rs): pad the blob to
4-byte alignment, append the bytes, and push a view sized to them. -/
def push_buffer_view_from_slice (a : WorkAsset) (bytes : List Nat) : WorkAsset × Nat :=
  let blob := a.blob ++ List.replicate ((4 - a.blob.length % 4) % 4) 0
  let view : BufferView := { byteOffset := some blob.length, byteLength := bytes.length }
  ({ a with blob := blob ++ bytes, bufferViews := a.bufferViews ++ [view] },
    a.bufferViews.length)

/-- `push_image`: append an image and its key, returning the new index. -/
def push_image (a : WorkAsset) (item : Image) (key : MeldKey) : WorkAsset × Nat :=
  ({ a with images := a.images ++ [item], image_keys := a.image_keys ++ [key] },
    a.images.length)

/-- `push_sampler`: append a sampler and its key, returning the new index. -/
def push_sampler (a : WorkAsset) (item : Sampler) (key : MeldKey) : WorkAsset × Nat :=
  ({ a with samplers := a.samplers ++ [item], sampler_keys := a.sampler_keys ++ [key] },
    a.samplers.length)

/-- `push_texture`: append a texture and its key, returning the new index. -/
def push_texture (a : WorkAsset) (item : Texture) (key : MeldKey) : WorkAsset × Nat :=
  ({ a with textures := a.textures ++ [item], texture_keys := a.texture_keys ++ [key] },
    a.textures.length)

/-- `push_material`: append a material and its key, returning the new index. -/
def push_material (a : WorkAsset) (item : Material) (key : MeldKey) : WorkAsset × Nat :=
  ({ a with materials := a.materials ++ [item], material_keys := a.material_keys ++ [key] },
    a.materials.length)

/-- Overwrite the variant map stored for one mesh/primitive slot
(`result.mesh_primitive_variants[m][p] = …`). -/
def setVariant (a : WorkAsset) (m p : Nat) (vm : VariantMap) : WorkAsset :=
  match a.mesh_primitive_variants.get? m with
  | none => a
  | some row =>
    { a with mesh_primitive_variants := a.mesh_primitive_variants.set m (row.set p vm) }

end WorkAsset

/-! ## The meld engine (src/native/src/work_asset/meld.rs)

Each `meld_in_*` helper returns `Option`: `none` marks a Rust panic
(out-of-range indexing, or the `assert_that!(new_object.buffer_view).is_some()`
in `meld_in_image`). -/

/-- `copy_byte_view`: copy the foreign view's bytes into the result blob and
allocate a fresh view for them. -/
def copy_byte_view (base : WorkAsset) (foreign : WorkAsset) (foreign_ix : Nat) :
    Option (WorkAsset × Nat) :=
  match foreign.bufferViews.get? foreign_ix with
  | none => none
  | some view =>
    match foreign.buffer_view_as_slice view with
    | none => none
    | some slice => some (base.push_buffer_view_from_slice slice)

/-- `meld_in_image`: reuse the base image with the same key, or clone the
foreign image, copying its buffer-view bytes into the result blob. -/
def meld_in_image (base : WorkAsset) (other : WorkAsset) (other_ix : Nat) :
    Option (WorkAsset × Nat) :=
  match other.image_keys.get? other_ix with
  | none => none
  | some key =>
    match base.image_ix key with
    | some ix => some (base, ix)
    | none =>
      match other.images.get? other_ix with
      | none => none
      | some img =>
        match img.bufferView with
        | none => none
        | some bv =>
          match copy_byte_view base other bv with
          | none => none
          | some (base, newView) =>
            some (base.push_image { img with bufferView := some newView } key)

/-- `meld_in_sampler`: reuse by key or clone directly. -/
def meld_in_sampler (base : WorkAsset) (other : WorkAsset) (other_ix : Nat) :
    Option (WorkAsset × Nat) :=
  match other.sampler_keys.get? other_ix with
  | none => none
  | some key =>
    match base.sampler_ix key with
    | some ix => some (base, ix)
    | none =>
      match other.samplers.get? other_ix with
      | none => none
      | some smp => some (base.push_sampler smp key)

/-- `meld_in_texture`: reuse by key, or clone after melding the source image
and the optional sampler. -/
def meld_in_texture (base : WorkAsset) (other : WorkAsset) (other_ix : Nat) :
    Option (WorkAsset × Nat) :=
  match other.texture_keys.get? other_ix with
  | none => none
  | some key =>
    match base.texture_ix key with
    | some ix => some (base, ix)
    | none =>
      match other.textures.get? other_ix with
      | none => none
      | some tex =>
        match meld_in_image base other tex.source with
        | none => none
        | some (base, newSource) =>
          match tex.sampler with
          | none => some (base.push_texture { tex with source := newSource } key)
          | some s =>
            match meld_in_sampler base other s with
            | none => none
            | some (base, newSampler) =>
              some (base.push_texture
                { tex with source := newSource, sampler := some newSampler } key)

/-- Meld one optional plain texture slot of a cloned material. -/
def meldSlotTexInfo (base : WorkAsset) (other : WorkAsset) (info : Option TexInfo) :
    Option (WorkAsset × Option TexInfo) :=
  match info with
  | none => some (base, none)
  | some i =>
    match meld_in_texture base other i.index with
    | none => none
    | some (base, ix) => some (base, some { i with index := ix })

/-- Meld the optional normal-texture slot of a cloned material. -/
def meldSlotNormal (base : WorkAsset) (other : WorkAsset) (info : Option NormalTexture) :
    Option (WorkAsset × Option NormalTexture) :=
  match info with
  | none => some (base, none)
  | some i =>
    match meld_in_texture base other i.index with
    | none => none
    | some (base, ix) => some (base, some { i with index := ix })

/-- Meld the optional occlusion-texture slot of a cloned material. -/
def meldSlotOcclusion (base : WorkAsset) (other : WorkAsset) (info : Option OcclusionTexture) :
    Option (WorkAsset × Option OcclusionTexture) :=
  match info with
  | none => some (base, none)
  | some i =>
    match meld_in_texture base other i.index with
    | none => none
    | some (base, ix) => some (base, some { i with index := ix })

/-- `meld_in_material`: reuse by key, or clone the foreign material after
melding each of its five texture slots (normal, occlusion, emissive,
base-color, metallic-roughness, in the source's order). -/
def meld_in_material (base : WorkAsset) (other : WorkAsset) (other_ix : Nat) :
    Option (WorkAsset × Nat) :=
  match other.material_keys.get? other_ix with
  | none => none
  | some key =>
    match base.material_ix key with
    | some ix => some (base, ix)
    | none =>
      match other.materials.get? other_ix with
      | none => none
      | some mat =>
        match meldSlotNormal base other mat.normalTexture with
        | none => none
        | some (base, newNormal) =>
          match meldSlotOcclusion base other mat.occlusionTexture with
          | none => none
          | some (base, newOcclusion) =>
            match meldSlotTexInfo base other mat.emissiveTexture with
            | none => none
            | some (base, newEmissive) =>
              match meldSlotTexInfo base other mat.pbrMetallicRoughness.baseColorTexture with
              | none => none
              | some (base, newBaseColor) =>
                match meldSlotTexInfo base other
                    mat.pbrMetallicRoughness.metallicRoughnessTexture with
                | none => none
                | some (base, newMR) =>
                  some (base.push_material
                    { mat with
                      normalTexture := newNormal
                      occlusionTexture := newOcclusion
                      emissiveTexture := newEmissive
                      pbrMetallicRoughness :=
                        { mat.pbrMetallicRoughness with
                          baseColorTexture := newBaseColor
                          metallicRoughnessTexture := newMR } } key)

/-- The base-side map of a primitive with the synthesized default entry: if
the primitive has a default material and the default tag is not yet mapped,
pair the asset's default tag with that material's key. -/
def synthMap (a : WorkAsset) (m p : Nat) : VariantMap :=
  let v := a.variant_mapping m p
  match (a.primAt m p).material with
  | some ix =>
    if vmContains v a.default_tag then v
    else vmInsert v a.default_tag (a.material_keys.getD ix "")
  | none => v

/-- The other-side map of the source's per-primitive loop: the variant map is
read *positionally* at primitive `p` (meld.rs line 44), while the default
entry is synthesized from the material of primitive `q` — the
fingerprint-matched index (meld.rs lines 53–59): if that primitive has a
default material and the default tag is not yet mapped, pair the asset's
default tag with that material's key. -/
def synthMapAt (a : WorkAsset) (m p q : Nat) : VariantMap :=
  let v := a.variant_mapping m p
  match (a.primAt m q).material with
  | some ix =>
    if vmContains v a.default_tag then v
    else vmInsert v a.default_tag (a.material_keys.getD ix "")
  | none => v

/-- The inner tag loop of `WorkAsset::meld`: walk the keys of the other
primitive's (synthesized) map, checking conflicts against the base map and
melding in the materials of new tags. -/
def meldTagLoop (other : WorkAsset) (base_mesh_ix primitive_ix other_mesh_ix : Nat)
    (base_map other_map : VariantMap) (entries : List (Tag × MeldKey))
    (result : WorkAsset) (result_map : VariantMap) :
    RResult (WorkAsset × VariantMap) :=
  match entries with
  | [] => .ok (result, result_map)
  | (other_tag, _) :: rest =>
    if vmContains base_map other_tag then
      if vmGet base_map other_tag ≠ vmGet other_map other_tag then
        .err s!"Base[{base_mesh_ix}/{primitive_ix}] vs Foreign[{other_mesh_ix}/{primitive_ix}]: Tag {other_tag} material mismatch!"
      else
        meldTagLoop other base_mesh_ix primitive_ix other_mesh_ix base_map other_map rest
          result result_map
    else
      match other.material_ix (vmGet other_map other_tag) with
      | some other_material_ix =>
        match meld_in_material result other other_material_ix with
        | none => .panic "meld_in_material: index out of range"
        | some (result, _) =>
          meldTagLoop other base_mesh_ix primitive_ix other_mesh_ix base_map other_map rest
            result (vmInsert result_map other_tag (vmGet other_map other_tag))
      | none =>
        .err s!"Other[{other_mesh_ix}/{primitive_ix}]: Material key {vmGet other_map other_tag} not found!"

/-- The per-primitive loop of `WorkAsset::meld` over primitive indices `ps`
of the matched mesh pair.  Both the base-side and the other-side variant maps
are read positionally at `p`; only the other side's synthesized default entry
comes from the fingerprint-matched primitive `other_primitive_ix`. -/
def meldPrimLoop (base other : WorkAsset) (base_mesh_ix other_mesh_ix : Nat)
    (ps : List Nat) (result : WorkAsset) : RResult WorkAsset :=
  match ps with
  | [] => .ok result
  | p :: rest =>
    match other.find_almost_equal_fingerprint other_mesh_ix
        (base.fingerprintAt base_mesh_ix p) none with
    | none =>
      .err s!"Melded asset has no equivalent to base mesh {base_mesh_ix}, primitive {p}."
    | some other_primitive_ix =>
      match meldTagLoop other base_mesh_ix p other_mesh_ix
          (synthMap base base_mesh_ix p)
          (synthMapAt other other_mesh_ix p other_primitive_ix)
          (synthMapAt other other_mesh_ix p other_primitive_ix) result
          (synthMap base base_mesh_ix p) with
      | .err m => .err m
      | .panic m => .panic m
      | .ok (result, result_map) =>
        meldPrimLoop base other base_mesh_ix other_mesh_ix rest
          (result.setVariant base_mesh_ix p result_map)

/-- The outer mesh loop of `WorkAsset::meld` over the enumerated mesh keys of
`other`.  A length mismatch between the paired meshes' primitive vectors is
the source's `assert_that!` panic. -/
def meldMeshLoop (base other : WorkAsset) (ms : List (Nat × MeldKey))
    (result : WorkAsset) : RResult WorkAsset :=
  match ms with
  | [] => .ok result
  | (other_mesh_ix, other_mesh_key) :: rest =>
    match base.mesh_ix other_mesh_key with
    | none => .err s!"meldd mesh #{other_mesh_ix} has no corresponding mesh in base!"
    | some base_mesh_ix =>
      if (base.meshAt base_mesh_ix).primitives.length =
          (other.meshAt other_mesh_ix).primitives.length then
        match meldPrimLoop base other base_mesh_ix other_mesh_ix
            (List.range (other.meshAt other_mesh_ix).primitives.length) result with
        | .ok result => meldMeshLoop base other rest result
        | .err m => .err m
        | .panic m => .panic m
      else .panic "assertion failed: base_primitives.len() == other_primitives.len()"

/-- `WorkAsset::meld(base, other)`: clone base, then meld in each mesh of
`other`. -/
def WorkAsset.meld (base other : WorkAsset) : RResult WorkAsset :=
  meldMeshLoop base other (enumL other.mesh_keys) base

/-! ## Export (src/native/src/work_asset/export.rs)

The metadata side of `prepare_for_export` is modelled in full; the JSON
serialisation (serde) and the final GLB assembly are modelled by
`glbToBytes` above.  `HashSet<usize>` image sets are modelled as
duplicate-free lists built with insert-if-absent; the key list of
`per_tag_images` is what becomes the metadata tag set. -/

/-- Insert-if-absent on a `HashSet<usize>` model. -/
def setInsert (s : List Nat) (x : Nat) : List Nat := if x ∈ s then s else s ++ [x]

/-- `accumulate_material_into_set`: collect the image (texture source is
resolved later by `image_size`; the source stores texture indices here and
reads `materials()[ix]`'s texture-info indices). -/
def accumulate_material_into_set (mat : Material) (s : List Nat) : List Nat :=
  let s :=
    match mat.pbrMetallicRoughness.baseColorTexture with
    | some i => setInsert s i.index
    | none => s
  let s :=
    match mat.pbrMetallicRoughness.metallicRoughnessTexture with
    | some i => setInsert s i.index
    | none => s
  let s :=
    match mat.normalTexture with
    | some i => setInsert s i.index
    | none => s
  let s :=
    match mat.occlusionTexture with
    | some i => setInsert s i.index
    | none => s
  match mat.emissiveTexture with
  | some i => setInsert s i.index
  | none => s

/-- The `ImageSizes` accumulator state. -/
structure ImageSizes where
  all_images : List Nat
  variational_images : List Nat
  per_tag_images : List (Tag × List Nat)
  deriving DecidableEq, Repr

/-- The fresh accumulator. -/
def ImageSizes.new : ImageSizes := { all_images := [], variational_images := [], per_tag_images := [] }

/-- `per_tag_images.entry(tag).or_insert(HashSet::new())`, followed by
accumulating the material into that entry's set. -/
def perTagAccumulate (l : List (Tag × List Nat)) (t : Tag) (mat : Material) :
    List (Tag × List Nat) :=
  match l with
  | [] => [(t, accumulate_material_into_set mat [])]
  | (t', s) :: rest =>
    if t' = t then (t', accumulate_material_into_set mat s) :: rest
    else (t', s) :: perTagAccumulate rest t mat

/-- `ImageSizes::accumulate_material`. -/
def ImageSizes.accumulate_material (sz : ImageSizes) (a : WorkAsset) (ix : Nat)
    (is_variational : Bool) : ImageSizes :=
  let mat := a.materials.getD ix defaultMaterial
  { sz with
    all_images := accumulate_material_into_set mat sz.all_images
    variational_images :=
      if is_variational then accumulate_material_into_set mat sz.variational_images
      else sz.variational_images }

/-- `ImageSizes::accumulate_tagged_material`. -/
def ImageSizes.accumulate_tagged_material (sz : ImageSizes) (a : WorkAsset) (ix : Nat)
    (tag : Tag) : ImageSizes :=
  { sz with per_tag_images := perTagAccumulate sz.per_tag_images tag (a.materials.getD ix defaultMaterial) }

/-- The entry loop of `export_variant_mapping` over one primitive's
tag→material-key map: resolve each key, treat default-tag entries specially,
and accumulate the rest into `tag_to_ix` and the sizer. -/
def exportPrimEntries (a : WorkAsset) (prim : Primitive) (entries : VariantMap)
    (tag_to_ix : List (Tag × Nat)) (sz : ImageSizes) :
    RResult (List (Tag × Nat) × ImageSizes) :=
  match entries with
  | [] => .ok (tag_to_ix, sz)
  | (tag, material_key) :: rest =>
    match a.material_ix material_key with
    | none => .err s!"Huh? Non-existent meld key: {material_key}"
    | some material_ix =>
      if tag = a.default_tag then
        match prim.material with
        | some default_material_ix =>
          if default_material_ix = material_ix then
            exportPrimEntries a prim rest tag_to_ix sz
          else
            .err s!"Huh? Default material {default_material_ix} != variant map entry {material_ix} of default tag {a.default_tag}."
        | none =>
          .err s!"Huh? No default material, but variant map entry {material_ix} of default tag {a.default_tag} "
      else
        exportPrimEntries a prim rest (tag_to_ix ++ [(tag, material_ix)])
          ((sz.accumulate_material a material_ix true).accumulate_tagged_material a
            material_ix tag)

/-- The default-material block of `export_variant_mapping`: account the
primitive's default material under the default tag, and emit the default-tag
pair only when other tags are present. -/
def exportPrimDefault (a : WorkAsset) (prim : Primitive)
    (tag_to_ix : List (Tag × Nat)) (sz : ImageSizes) :
    List (Tag × Nat) × ImageSizes :=
  match prim.material with
  | none => (tag_to_ix, sz)
  | some default_material_ix =>
    if !tag_to_ix.isEmpty then
      (tag_to_ix ++ [(a.default_tag, default_material_ix)],
        (sz.accumulate_material a default_material_ix
          (!tag_to_ix.isEmpty)).accumulate_tagged_material a default_material_ix
          a.default_tag)
    else
      (tag_to_ix,
        (sz.accumulate_material a default_material_ix
          (!tag_to_ix.isEmpty)).accumulate_tagged_material a default_material_ix
          a.default_tag)

/-- The primitive loop of `export_variant_mapping` within one mesh.  The
written primitive extension (`write_variant_map`) affects only the exported
JSON, not the metadata, and is not tracked here. -/
def exportPrimLoop (a : WorkAsset) (m : Nat) (prims : List (Nat × Primitive))
    (sz : ImageSizes) : RResult ImageSizes :=
  match prims with
  | [] => .ok sz
  | (p, prim) :: rest =>
    match exportPrimEntries a prim (a.variant_mapping m p) [] sz with
    | .err e => .err e
    | .panic e => .panic e
    | .ok (tag_to_ix, sz) =>
      let (_, sz) := exportPrimDefault a prim tag_to_ix sz
      exportPrimLoop a m rest sz

/-- The mesh loop of `export_variant_mapping`. -/
def exportMeshLoop (a : WorkAsset) (ms : List (Nat × Mesh)) (sz : ImageSizes) :
    RResult ImageSizes :=
  match ms with
  | [] => .ok sz
  | (m, mesh) :: rest =>
    match exportPrimLoop a m (enumL mesh.primitives) sz with
    | .err e => .err e
    | .panic e => .panic e
    | .ok sz => exportMeshLoop a rest sz

/-- The full accumulation pass of `export_variant_mapping`. -/
def exportImageSizes (a : WorkAsset) : RResult ImageSizes :=
  exportMeshLoop a (enumL a.meshes) ImageSizes.new

/-- The tag keys of the accumulator: what `per_tag_image_size.keys()`
becomes. -/
def perTagKeys (sz : ImageSizes) : List Tag := sz.per_tag_images.map Prod.fst

/-- Sum the sizes of a set of images, failing like `count` does. -/
def sumImageList (a : WorkAsset) (images : List Nat) : RResult Nat :=
  match images with
  | [] => .ok 0
  | ix :: rest =>
    match (a.images.get? ix).elim (RResult.panic s!"image index {ix} out of range")
        a.read_image_bytes with
    | .err e => .err e
    | .panic e => .panic e
    | .ok bytes =>
      match sumImageList a rest with
      | .err e => .err e
      | .panic e => .panic e
      | .ok n => .ok (bytes.length + n)

/-- Per-tag sums of `ImageSizes::count`. -/
def sumPerTag (a : WorkAsset) (l : List (Tag × List Nat)) :
    RResult (List (Tag × Nat)) :=
  match l with
  | [] => .ok []
  | (t, s) :: rest =>
    match sumImageList a s with
    | .err e => .err e
    | .panic e => .panic e
    | .ok n =>
      match sumPerTag a rest with
      | .err e => .err e
      | .panic e => .panic e
      | .ok ns => .ok ((t, n) :: ns)

/-- The `Metadata` record of a variational asset
(src/native/src/variational_asset/metadata.rs). -/
structure Metadata where
  tags : List Tag
  total_sizes : Nat
  variational_sizes : Nat
  per_tag_sizes : List (Tag × Nat)
  deriving DecidableEq, Repr

/-- The metadata computation of `export_variant_mapping` followed by
`ImageSizes::count`: the tag set is the key set of the per-tag map. -/
def exportMetadata (a : WorkAsset) : RResult Metadata :=
  match exportImageSizes a with
  | .err e => .err e
  | .panic e => .panic e
  | .ok sz =>
    match sumImageList a sz.all_images with
    | .err e => .err e
    | .panic e => .panic e
    | .ok total =>
      match sumImageList a sz.variational_images with
      | .err e => .err e
      | .panic e => .panic e
      | .ok variational =>
        match sumPerTag a sz.per_tag_images with
        | .err e => .err e
        | .panic e => .panic e
        | .ok per_tag =>
          .ok { tags := per_tag.map Prod.fst
                total_sizes := total
                variational_sizes := variational
                per_tag_sizes := per_tag }

/-- The root document fields `prepare_for_export` rewrites: `install` marks
the extension in `extensions_used`, and `export_extension_tag` writes the
default tag into the root extension slot. -/
structure ExportedRoot where
  extensionsUsed : List String
  fbRootExtension : Option FBMaterialVariantRootExtension
  deriving DecidableEq, Repr

/-- The root rewriting of `prepare_for_export`. -/
def prepareRoot (a : WorkAsset) : ExportedRoot :=
  { extensionsUsed := install a.extensionsUsed
    fbRootExtension := some { default_tag := a.default_tag } }

/-! ## Construction postconditions (src/native/src/work_asset/construct.rs)

`WorkAsset::new` populates every key table and fingerprint table eagerly and
runs `ensure_unique_mesh_keys` and `ensure_uniqueish_fingerprints`; its
successful results satisfy `WF` below.  (Key strings are carried as state;
their derivation from object content is modelled separately where a claim
needs it.) -/

/-- `true` iff an `RResult` is `ok`. -/
def RResult.isOk {α : Type} : RResult α → Bool
  | .ok _ => true
  | .err _ => false
  | .panic _ => false

/-- The invariants `WorkAsset::new` establishes on every successfully
constructed asset. -/
def WF (a : WorkAsset) : Prop :=
  a.mesh_keys.length = a.meshes.length ∧
  a.material_keys.length = a.materials.length ∧
  a.image_keys.length = a.images.length ∧
  a.sampler_keys.length = a.samplers.length ∧
  a.texture_keys.length = a.textures.length ∧
  a.mesh_primitive_variants.map List.length = a.meshes.map (fun m => m.primitives.length) ∧
  a.mesh_primitive_fingerprints.map List.length =
    a.meshes.map (fun m => m.primitives.length) ∧
  a.mesh_keys.Nodup ∧
  (∀ row ∈ a.mesh_primitive_fingerprints, ∀ e1 ∈ enumL row, ∀ e2 ∈ enumL row,
    e1.1 ≠ e2.1 → ¬ fingerprintClose e1.2 e2.2 = true) ∧
  (∀ row ∈ a.mesh_primitive_variants, ∀ vm ∈ row,
    (vm.map Prod.fst).Nodup ∧ ∀ e ∈ vm, e.2 ∈ a.material_keys) ∧
  (∀ img ∈ a.images, (a.read_image_bytes img).isOk = true) ∧
  (∀ e ∈ a.rootExtension.toList, e.default_tag ≠ "" ∧ a.default_tag = e.default_tag)

instance (a : WorkAsset) : Decidable (WF a) := by
  unfold WF
  exact inferInstance

/-! ## Concrete assets used to settle individual claims -/

/-- The rational `1/1000000` in reduced constructor form, for concrete
fingerprints. -/
def epsQ : ℚ := ⟨1, 1000000, by decide, by decide⟩

/-- The rational `1/2000000` in reduced constructor form, for concrete
fingerprints. -/
def halfEpsQ : ℚ := ⟨1, 2000000, by decide, by decide⟩

/-- A material with no texture references and a given base-color rendering. -/
def plainMaterial (bcf : String) : Material :=
  { defaultMaterial with
    pbrMetallicRoughness := { defaultMaterial.pbrMetallicRoughness with baseColorFactor := bcf } }

/-- An empty `WorkAsset` scaffold to build concrete assets from. -/
def emptyAsset : WorkAsset :=
  { images := []
    samplers := []
    textures := []
    materials := []
    meshes := []
    bufferViews := []
    extensionsUsed := []
    rootExtension := none
    blob := []
    default_tag := ""
    mesh_primitive_variants := []
    image_keys := []
    material_keys := []
    mesh_keys := []
    sampler_keys := []
    texture_keys := []
    mesh_primitive_fingerprints := [] }

/-- Base asset of the tag-set counterexample: one mesh of two primitives with
fingerprints exactly `EPS_FINGERPRINT` apart, both drawn with material `KA`,
default tag `a`. -/
def cxA : WorkAsset :=
  { emptyAsset with
    materials := [plainMaterial "[1.0, 1.0, 1.0, 1.0]"]
    meshes := [{ name := some "M",
                 primitives := [{ material := some 0 }, { material := some 0 }] }]
    default_tag := "a"
    mesh_primitive_variants := [[[], []]]
    material_keys := ["KA"]
    mesh_keys := ["M"]
    mesh_primitive_fingerprints := [[0, epsQ]] }

/-- Other asset of the tag-set counterexample: one mesh of two primitives;
the first has no default material and a fingerprint within `EPS_FINGERPRINT`
of both of `cxA`'s, the second carries the explicit variant tag `x` and a
default material (whence `b ∈ tags(cxB)`). -/
def cxB : WorkAsset :=
  { emptyAsset with
    materials := [plainMaterial "[0.5, 0.5, 0.5, 1.0]", plainMaterial "[0.0, 0.5, 0.0, 1.0]"]
    meshes := [{ name := some "M",
                 primitives := [{ material := none }, { material := some 0 }] }]
    default_tag := "b"
    mesh_primitive_variants := [[[], [("x", "KB1")]]]
    material_keys := ["KB0", "KB1"]
    mesh_keys := ["M"]
    mesh_primitive_fingerprints := [[halfEpsQ, 1]] }

/-- The meld of the counterexample pair. -/
def cxR : WorkAsset := (WorkAsset.meld cxA cxB).getOk emptyAsset

/-- The metadata of an asset, `emptyAsset`-defaulting on failure. -/
def metaOf (a : WorkAsset) : Metadata :=
  (exportMetadata a).getOk
    { tags := [], total_sizes := 0, variational_sizes := 0, per_tag_sizes := [] }

/-- Base asset for the primitive-count panic: mesh `M` with one primitive. -/
def cxP : WorkAsset :=
  { emptyAsset with
    meshes := [{ name := some "M", primitives := [{ material := none }] }]
    default_tag := "p"
    mesh_primitive_variants := [[[]]]
    mesh_keys := ["M"]
    mesh_primitive_fingerprints := [[0]] }

/-- Other asset for the primitive-count panic: mesh `M` with two primitives. -/
def cxQ : WorkAsset :=
  { emptyAsset with
    meshes := [{ name := some "M",
                 primitives := [{ material := none }, { material := none }] }]
    default_tag := "q"
    mesh_primitive_variants := [[[], []]]
    mesh_keys := ["M"]
    mesh_primitive_fingerprints := [[0, 1]] }

/-- Base asset of the iteration-order experiment: one mesh, one primitive, no
materials. -/
def cxA4 : WorkAsset :=
  { emptyAsset with
    meshes := [{ name := some "M", primitives := [{ material := none }] }]
    default_tag := "a"
    mesh_primitive_variants := [[[]]]
    mesh_keys := ["M"]
    mesh_primitive_fingerprints := [[0]] }

/-- Other asset of the iteration-order experiment: its only primitive maps
two fresh tags to two distinct materials; this variant presents the map in
the order `x`, `y`. -/
def cxB4a : WorkAsset :=
  { emptyAsset with
    materials := [plainMaterial "[1.0, 0.0, 0.0, 1.0]", plainMaterial "[0.0, 1.0, 0.0, 1.0]"]
    meshes := [{ name := some "M", primitives := [{ material := none }] }]
    default_tag := "a"
    mesh_primitive_variants := [[[("x", "KX"), ("y", "KY")]]]
    material_keys := ["KX", "KY"]
    mesh_keys := ["M"]
    mesh_primitive_fingerprints := [[0]] }

/-- The same logical asset as `cxB4a` — the variant map holds the same
key→value pairs — presented in the iteration order `y`, `x`. -/
def cxB4b : WorkAsset :=
  { cxB4a with mesh_primitive_variants := [[[("y", "KY"), ("x", "KX")]]] }

/-- A base asset holding one shared image, for the deduplication witness. -/
def cxImgBase : WorkAsset :=
  { emptyAsset with
    images := [{ bufferView := some 0, mimeType := some "image/png", uri := none }]
    bufferViews := [{ byteOffset := some 0, byteLength := 4 }]
    blob := [1, 2, 3, 4]
    default_tag := "s"
    image_keys := ["H"] }

/-- An other asset holding the byte-identical image under a different MIME
type, for the deduplication witness. -/
def cxImgOther : WorkAsset :=
  { emptyAsset with
    images := [{ bufferView := some 0, mimeType := some "image/jpeg", uri := some "t.jpg" }]
    bufferViews := [{ byteOffset := some 0, byteLength := 4 }]
    blob := [1, 2, 3, 4]
    default_tag := "t"
    image_keys := ["H"] }

/-- Base asset of the frame-condition witness: meshes `M` and `N`; `N` has no
counterpart in the other asset. -/
def cx9A : WorkAsset :=
  { emptyAsset with
    meshes := [{ name := some "M", primitives := [{ material := none }] },
               { name := some "N", primitives := [{ material := none }] }]
    default_tag := "a"
    mesh_primitive_variants := [[[]], [[("q", "KQ")]]]
    mesh_keys := ["M", "N"]
    mesh_primitive_fingerprints := [[0], [5]] }

/-- Other asset of the frame-condition witness: only mesh `M`. -/
def cx9B : WorkAsset :=
  { emptyAsset with
    meshes := [{ name := some "M", primitives := [{ material := none }] }]
    default_tag := "b"
    mesh_primitive_variants := [[[]]]
    mesh_keys := ["M"]
    mesh_primitive_fingerprints := [[0]] }

/-- The meld of the frame-condition pair. -/
def cx9R : WorkAsset := (WorkAsset.meld cx9A cx9B).getOk emptyAsset

/-- A trivial asset whose document lists no used extensions. -/
def cx6 : WorkAsset := { emptyAsset with default_tag := "t" }

/-! ## Predicates for the meld/export theorems -/

/-- `build_meld_key` for `Image` (src/native/src/meld_keys/key_trait.rs): the
digest of the image's raw encoded bytes.  Modelled from the spec: the digest
is the hexadecimal-encoded SHA-1 of the external `sha1` crate, treated as an
arbitrary deterministic function `h` of the byte payload — the source feeds
the digest nothing but `read_image_bytes`, in particular neither the MIME
type nor any file path. -/
def buildImageKey (h : List Nat → MeldKey) (a : WorkAsset) (img : Image) :
    RResult MeldKey :=
  match a.read_image_bytes img with
  | .ok bytes => .ok (h bytes)
  | .err e => .err e
  | .panic e => .panic e

/-- A mesh/primitive position that exists in the asset's document. -/
def PrimSite (a : WorkAsset) (m p : Nat) (prim : Primitive) : Prop :=
  ∃ mesh, a.meshes.get? m = some mesh ∧ mesh.primitives.get? p = some prim

/-- Some existing primitive's variant map carries the tag. -/
def HasVariantTag (a : WorkAsset) (t : Tag) : Prop :=
  ∃ m p prim k, PrimSite a m p prim ∧ (t, k) ∈ a.variant_mapping m p

/-- Some existing primitive has a default material. -/
def HasDefaultMaterial (a : WorkAsset) : Prop :=
  ∃ m p prim, PrimSite a m p prim ∧ prim.material.isSome = true

/-- What the `meld_in_*` helpers leave untouched of the result asset, plus
the append-only growth of the material key table. -/
def MeldExt (b r : WorkAsset) : Prop :=
  r.meshes = b.meshes ∧ r.mesh_keys = b.mesh_keys ∧ r.default_tag = b.default_tag ∧
  r.mesh_primitive_fingerprints = b.mesh_primitive_fingerprints ∧
  (∃ s, r.material_keys = b.material_keys ++ s) ∧
  r.mesh_primitive_variants = b.mesh_primitive_variants

/-- What the meld loops preserve: like `MeldExt` but the variant table is
only preserved in shape, its rows being rewritten entry by entry. -/
def MeldExtLoop (b r : WorkAsset) : Prop :=
  r.meshes = b.meshes ∧ r.mesh_keys = b.mesh_keys ∧ r.default_tag = b.default_tag ∧
  r.mesh_primitive_fingerprints = b.mesh_primitive_fingerprints ∧
  (∃ s, r.material_keys = b.material_keys ++ s) ∧
  r.mesh_primitive_variants.map List.length = b.mesh_primitive_variants.map List.length

/-- Upper bound on the melded variant maps: every entry stems from the
base-side synthesized map at the same slot or from some other-side map read
positionally with the default entry synthesized from some primitive. -/
def MeldUpper (A B r : WorkAsset) : Prop :=
  ∀ m p, ∀ e ∈ r.variant_mapping m p,
    e ∈ synthMap A m p ∨ ∃ om op oq, e ∈ synthMapAt B om op oq

/-- Lower bound on the melded variant maps: every original base entry
survives. -/
def MeldLower (A r : WorkAsset) : Prop :=
  ∀ m p, ∀ e ∈ A.variant_mapping m p, e ∈ r.variant_mapping m p

/-! # Theorems -/

/-! ## Sanity: the integer-arithmetic tolerance test is the source's test -/

theorem fingerprintClose_iff (x y : Fingerprint) :
    fingerprintClose x y = true ↔ |x - y| < EPS_FINGERPRINT := by
  have hxd : (0 : ℚ) < (x.den : ℚ) := by exact_mod_cast x.pos
  have hyd : (0 : ℚ) < (y.den : ℚ) := by exact_mod_cast y.pos
  have hx : (x : ℚ) = (x.num : ℚ) / (x.den : ℚ) := (Rat.num_div_den x).symm
  have hy : (y : ℚ) = (y.num : ℚ) / (y.den : ℚ) := (Rat.num_div_den y).symm
  have hD : (0 : ℚ) < ((x.den * y.den : ℕ) : ℚ) := by positivity
  have hsub : x - y =
      ((x.num * (y.den : ℤ) - y.num * (x.den : ℤ) : ℤ) : ℚ) / ((x.den * y.den : ℕ) : ℚ) := by
    conv_lhs => rw [hx, hy]
    rw [div_sub_div _ _ (ne_of_gt hxd) (ne_of_gt hyd)]
    push_cast
    ring_nf
  have habs : |((x.num * (y.den : ℤ) - y.num * (x.den : ℤ) : ℤ) : ℚ)| =
      (((x.num * (y.den : ℤ) - y.num * (x.den : ℤ)).natAbs : ℕ) : ℚ) := by
    rw [Int.cast_natAbs, Int.cast_abs]
  have hbool : fingerprintClose x y = true ↔
      1000000 * (x.num * (y.den : ℤ) - y.num * (x.den : ℤ)).natAbs < x.den * y.den := by
    unfold fingerprintClose
    rw [decide_eq_true_eq]
  rw [hbool, EPS_FINGERPRINT, hsub, abs_div, abs_of_pos hD,
    div_lt_div_iff hD (by norm_num), habs, one_mul]
  rw [show (((x.num * (y.den : ℤ) - y.num * (x.den : ℤ)).natAbs : ℕ) : ℚ) * 1000000 =
      ((1000000 * (x.num * (y.den : ℤ) - y.num * (x.den : ℤ)).natAbs : ℕ) : ℚ) from by
    push_cast; ring]
  exact (Nat.cast_lt).symm

/-! ## C3 — panics instead of error returns -/

/-- C3: the library promises every failure surfaces as an error value, but
two public paths abort instead: `read_from_uri` hits `panic!` on a URI scheme
other than bare/`file:`/`file://` (rather than returning an `UnsupportedUri`
error), and `WorkAsset::meld` hits the `assert_that!` primitive-count
assertion on name-matched meshes of different primitive counts (rather than
returning a `PrimitiveCountMismatch` error). -/
theorem c3_public_operations_panic :
    readFromUriPath "http://example.com/buffer.bin" = none ∧
    WorkAsset.meld cxP cxQ =
      .panic "assertion failed: base_primitives.len() == other_primitives.len()" := by
  constructor
  · decide
  · decide

/-! ## C4 — meld output depends on `HashMap` iteration order -/

/-- C4: `meld` walks `other_map.keys()` of a Rust `HashMap`, whose iteration
order is randomized per process run, while appending melded materials to the
result.  The assets `cxB4a` and `cxB4b` hold the same tag→key map — the same
key/value pairs, lookup-equal under `vmGet`/`vmContains` — merely presented
in the two possible iteration orders, and melding them into the same base
produces different material tables, hence different exported JSON and GLB
bytes.  This refutes run-to-run byte-identical output. -/
theorem c4_meld_depends_on_hash_iteration_order :
    (∀ t : Tag,
      vmGet (cxB4a.variant_mapping 0 0) t = vmGet (cxB4b.variant_mapping 0 0) t ∧
      vmContains (cxB4a.variant_mapping 0 0) t = vmContains (cxB4b.variant_mapping 0 0) t) ∧
    (WorkAsset.meld cxA4 cxB4a).isOk = true ∧
    (WorkAsset.meld cxA4 cxB4b).isOk = true ∧
    ((WorkAsset.meld cxA4 cxB4a).getOk emptyAsset).material_keys = ["KX", "KY"] ∧
    ((WorkAsset.meld cxA4 cxB4b).getOk emptyAsset).material_keys = ["KY", "KX"] := by
  refine ⟨fun t => ?_, by decide, by decide, by decide, by decide⟩
  by_cases hx : t = "x"
  · subst hx; exact ⟨by decide, by decide⟩
  · by_cases hy : t = "y"
    · subst hy; exact ⟨by decide, by decide⟩
    · have hx' : (("x" : String) == t) = false := by
        simp [beq_iff_eq]; exact fun h => hx h.symm
      have hy' : (("y" : String) == t) = false := by
        simp [beq_iff_eq]; exact fun h => hy h.symm
      constructor
      · show vmGet [("x", "KX"), ("y", "KY")] t = vmGet [("y", "KY"), ("x", "KX")] t
        simp [vmGet, List.find?, hx', hy']
      · show vmContains [("x", "KX"), ("y", "KY")] t = vmContains [("y", "KY"), ("x", "KX")] t
        simp [vmContains, List.any, hx', hy']

/-! ## C5 — the GLB header's total-length field -/

/-- C5: the GLB header should carry the total output length as a full
little-endian 32-bit integer, but the patch loop `for i in 0..3` writes only
the low three bytes over the zero placeholder: for any 4-byte-aligned JSON
payload making the total at least `2^24`, byte 11 of the output stays `0`
while the true length's fourth little-endian byte is non-zero. -/
theorem c5_glb_length_high_byte_dropped (json : List Nat)
    (h4 : json.length % 4 = 0) (hpos : 0 < json.length)
    (hbig : 2 ^ 24 ≤ 20 + json.length) (hlt : 20 + json.length < 2 ^ 32) :
    (glbToBytes json none).length = 20 + json.length ∧
    (glbToBytes json none).get? 11 = some 0 ∧
    (u32le (20 + json.length)).get? 3 = some ((20 + json.length) / 2 ^ 24 % 256) ∧
    (20 + json.length) / 2 ^ 24 % 256 ≠ 0 := by
  have hpad : padChunk 32 json = json := by
    simp [padChunk, h4]
  have happ : appendChunk (GLB_MAGIC ++ u32le 2 ++ u32le 0) true json =
      GLB_MAGIC ++ u32le 2 ++ u32le 0 ++ u32le json.length ++ u32le 0x4E4F534A ++ json := by
    simp only [appendChunk, if_pos hpos, if_pos rfl, hpad, gt_iff_lt]
    simp [hpad, List.append_assoc]
  have hlen : (GLB_MAGIC ++ u32le 2 ++ u32le 0 ++ u32le json.length ++
      u32le 0x4E4F534A ++ json).length = 20 + json.length := by
    simp only [List.length_append]
    have e1 : GLB_MAGIC.length = 4 := rfl
    have e2 : (u32le 2).length = 4 := rfl
    have e3 : (u32le 0).length = 4 := rfl
    have e4 : (u32le json.length).length = 4 := rfl
    have e5 : (u32le 0x4E4F534A).length = 4 := rfl
    omega
  have hdiv1 : 1 ≤ (20 + json.length) / 2 ^ 24 :=
    (Nat.one_le_div_iff (by norm_num)).mpr hbig
  have hdiv2 : (20 + json.length) / 2 ^ 24 < 256 := by
    rw [Nat.div_lt_iff_lt_mul (by norm_num : 0 < 2 ^ 24)]
    calc 20 + json.length < 2 ^ 32 := hlt
      _ = 256 * 2 ^ 24 := by norm_num
  refine ⟨?_, ?_, ?_, ?_⟩
  · rw [glbToBytes]
    simp only [happ, List.length_set]
    exact hlen
  · rw [glbToBytes]
    simp only [happ]
    rw [List.get?_set_ne _ _ (by norm_num : (10 : ℕ) ≠ 11),
      List.get?_set_ne _ _ (by norm_num : (9 : ℕ) ≠ 11),
      List.get?_set_ne _ _ (by norm_num : (8 : ℕ) ≠ 11)]
    have h12 : (GLB_MAGIC ++ u32le 2 ++ u32le 0).length = 12 := by decide
    rw [List.append_assoc, List.append_assoc,
      List.get?_append (by rw [h12]; norm_num)]
    decide
  · simp [u32le]
  · rw [Nat.mod_eq_of_lt hdiv2]
    omega

/-- Witness for `c5_glb_length_high_byte_dropped` at a 16 MiB JSON payload. -/
theorem c5_glb_length_high_byte_dropped_witness :
    (glbToBytes (List.replicate (2 ^ 24) 32) none).length = 20 + (List.replicate (2 ^ 24) 32).length ∧
    (glbToBytes (List.replicate (2 ^ 24) 32) none).get? 11 = some 0 ∧
    (u32le (20 + (List.replicate (2 ^ 24) 32).length)).get? 3 =
      some ((20 + (List.replicate (2 ^ 24) 32).length) / 2 ^ 24 % 256) ∧
    (20 + (List.replicate (2 ^ 24) 32).length) / 2 ^ 24 % 256 ≠ 0 :=
  c5_glb_length_high_byte_dropped (List.replicate (2 ^ 24) 32)
    (by rw [List.length_replicate]; norm_num)
    (by rw [List.length_replicate]; norm_num)
    (by rw [List.length_replicate]; norm_num)
    (by rw [List.length_replicate]; norm_num)

/-! ## C6 — the installed extension name -/

/-- C6 counterexample: exporting an asset whose document lists no used
extensions yields a root whose `extensionsUsed` holds only
`FB_material_variants`; the claimed name `KHR_materials_variants` is absent. -/
theorem c6_khr_name_not_installed :
    (prepareRoot cx6).extensionsUsed = ["FB_material_variants"] ∧
    "KHR_materials_variants" ∉ (prepareRoot cx6).extensionsUsed := by
  constructor
  · decide
  · decide

/-- C6 amended: the name the extension codec installs is
`FB_material_variants`; after `install` it is present, it occurs exactly once
provided the source document listed it at most once, and reinstalling (as a
repeated export of the same document would) adds no duplicate. -/
theorem c6_extension_installed_exactly_once (used : List String)
    (h : List.count FB_MATERIAL_VARIANTS used ≤ 1) :
    FB_MATERIAL_VARIANTS ∈ install used ∧
    List.count FB_MATERIAL_VARIANTS (install used) = 1 ∧
    install (install used) = install used := by
  by_cases hmem : FB_MATERIAL_VARIANTS ∈ used
  · have hcount : List.count FB_MATERIAL_VARIANTS used = 1 := by
      have := List.count_pos_iff_mem.mpr hmem
      omega
    have hiu : install used = used := by rw [install, if_pos hmem]
    refine ⟨?_, ?_, ?_⟩
    · rw [hiu]; exact hmem
    · rw [hiu]; exact hcount
    · rw [hiu, hiu]
  · have hcount : List.count FB_MATERIAL_VARIANTS used = 0 :=
      List.count_eq_zero.mpr hmem
    have hmem' : FB_MATERIAL_VARIANTS ∈ used ++ [FB_MATERIAL_VARIANTS] := by
      simp
    have hiu : install used = used ++ [FB_MATERIAL_VARIANTS] := by
      rw [install, if_neg hmem]
    refine ⟨?_, ?_, ?_⟩
    · rw [hiu]; exact hmem'
    · rw [hiu, List.count_append, hcount]; simp
    · rw [hiu, install, if_pos hmem']

/-- Witness for `c6_extension_installed_exactly_once` on the empty list. -/
theorem c6_extension_installed_exactly_once_witness :
    FB_MATERIAL_VARIANTS ∈ install [] ∧
    List.count FB_MATERIAL_VARIANTS (install []) = 1 ∧
    install (install []) = install [] :=
  c6_extension_installed_exactly_once [] (by decide)

/-! ## C7 / C8 — the default-tag reconciliation of `get_validated_extension_tag` -/

theorem gvet_none_none :
    get_validated_extension_tag none none =
      .error "No default tag provided, and none found in asset." := rfl

theorem gvet_none_some (d : Tag) :
    get_validated_extension_tag none (some d) = .ok d := rfl

theorem gvet_some_none (e : FBMaterialVariantRootExtension) (ht : e.default_tag ≠ "") :
    get_validated_extension_tag (some e) none = .ok e.default_tag := by
  simp only [get_validated_extension_tag, get_tag_from_extension, get_root_extension,
    if_pos ht]
  rfl

theorem gvet_some_some (e : FBMaterialVariantRootExtension) (d : Tag)
    (ht : e.default_tag ≠ "") :
    get_validated_extension_tag (some e) (some d) =
      if e.default_tag = d then .ok d
      else .error s!"Provided tag ({d}) does not match extension tag ({e.default_tag})." := by
  simp only [get_validated_extension_tag, get_tag_from_extension, get_root_extension,
    if_pos ht]
  rfl

theorem gvet_some_empty (e : FBMaterialVariantRootExtension) (arg : Option Tag)
    (ht : e.default_tag = "") :
    get_validated_extension_tag (some e) arg =
      .error "Missing default_tag in FB_material_variants root extension." := by
  have hne : ¬ e.default_tag ≠ "" := fun h => h ht
  cases arg <;>
    simp only [get_validated_extension_tag, get_tag_from_extension, get_root_extension,
      if_neg hne] <;> rfl

/-- C7: `get_validated_extension_tag` implements exactly the claimed four
cases for a document whose extension records a (necessarily non-empty)
default tag `t` and a supplied argument `d`: both present must match (else
the DefaultTagMismatch error), argument alone is accepted, in-document tag
alone is used, and neither yields the MissingDefaultTag error.  (The
library's error type is `String`; the discriminants of the spec's taxonomy
correspond to the messages below.) -/
theorem c7_default_tag_validation (d t : Tag) (ht : t ≠ "") :
    (get_validated_extension_tag (some { default_tag := t }) (some d) =
      if t = d then .ok d
      else .error s!"Provided tag ({d}) does not match extension tag ({t}).") ∧
    get_validated_extension_tag none (some d) = .ok d ∧
    get_validated_extension_tag (some { default_tag := t }) none = .ok t ∧
    get_validated_extension_tag none none =
      .error "No default tag provided, and none found in asset." :=
  ⟨gvet_some_some { default_tag := t } d ht, gvet_none_some d,
    gvet_some_none { default_tag := t } ht, gvet_none_none⟩

/-- Witness for `c7_default_tag_validation` at `d = "a"`, `t = "b"`. -/
theorem c7_default_tag_validation_witness :
    (get_validated_extension_tag (some { default_tag := "b" }) (some "a") =
      .error "Provided tag (a) does not match extension tag (b).") ∧
    get_validated_extension_tag none (some "a") = .ok "a" ∧
    get_validated_extension_tag (some { default_tag := "b" }) none = .ok "b" ∧
    get_validated_extension_tag none none =
      .error "No default tag provided, and none found in asset." :=
  c7_default_tag_validation "a" "b" (by decide)

/-- C8 counterexample: construction accepts a caller-supplied *empty*
default tag when the document records none — `get_validated_extension_tag`
(whose result `WorkAsset::new` stores verbatim as `default_tag`) returns
`Ok("")`, so a successfully constructed asset can carry an empty default
tag, contradicting the claimed invariant. -/
theorem c8_empty_supplied_tag_accepted :
    get_validated_extension_tag none (some "") = .ok "" := rfl

/-- C8 amended: the stored default tag equals the in-document tag whenever
the document records one, and it is non-empty provided the caller-supplied
argument, if any, is non-empty (the in-document tag is itself validated
non-empty). -/
theorem c8_default_tag_stored_and_nonempty
    (ext : Option FBMaterialVariantRootExtension) (arg : Option Tag) (tag : Tag)
    (harg : arg = none ∨ ∃ d, arg = some d ∧ d ≠ "")
    (hok : get_validated_extension_tag ext arg = .ok tag) :
    tag ≠ "" ∧ ∀ e, ext = some e → tag = e.default_tag := by
  cases ext with
  | none =>
    cases arg with
    | none => rw [gvet_none_none] at hok; exact Except.noConfusion hok
    | some d =>
      rw [gvet_none_some] at hok
      have hd : d = tag := by injection hok
      rcases harg with h | ⟨d', hd', hne⟩
      · exact Option.noConfusion h
      · have hdd : d = d' := by injection hd'
        subst hdd
        refine ⟨hd ▸ hne, fun e he => Option.noConfusion he⟩
  | some e =>
    by_cases he : e.default_tag = ""
    · rw [gvet_some_empty e arg he] at hok
      exact Except.noConfusion hok
    · cases arg with
      | none =>
        rw [gvet_some_none e he] at hok
        have hd : e.default_tag = tag := by injection hok
        exact ⟨hd ▸ he, fun e' he' => by cases he'; exact hd.symm⟩
      | some d =>
        rw [gvet_some_some e d he] at hok
        by_cases hdt : e.default_tag = d
        · rw [if_pos hdt] at hok
          have hd : d = tag := by injection hok
          refine ⟨hd ▸ hdt ▸ he, fun e' he' => by cases he'; exact (hd ▸ hdt).symm⟩
        · rw [if_neg hdt] at hok
          exact Except.noConfusion hok

/-- Witness for `c8_default_tag_stored_and_nonempty` at a recorded tag. -/
theorem c8_default_tag_stored_and_nonempty_witness :
    ("s" : Tag) ≠ "" ∧
    ("s" : Tag) = ({ default_tag := "s" } : FBMaterialVariantRootExtension).default_tag :=
  ⟨(c8_default_tag_stored_and_nonempty (some { default_tag := "s" }) none "s"
      (Or.inl rfl) (gvet_some_none { default_tag := "s" } (by decide))).1,
   (c8_default_tag_stored_and_nonempty (some { default_tag := "s" }) none "s"
      (Or.inl rfl) (gvet_some_none { default_tag := "s" } (by decide))).2
     { default_tag := "s" } rfl⟩


/-! ## Basic lemmas on the list and map utilities -/

theorem listFindIdx_get {k : MeldKey} {l : List MeldKey} {j : Nat}
    (h : listFindIdx k l = some j) : l.get? j = some k := by
  induction l generalizing j with
  | nil => simp [listFindIdx] at h
  | cons a as ih =>
    by_cases ha : a = k
    · rw [listFindIdx, if_pos ha] at h
      cases h
      simp [ha]
    · rw [listFindIdx, if_neg ha] at h
      match j, h with
      | 0, h => simp at h
      | j + 1, h =>
        simp only [Option.map_eq_some'] at h
        rcases h with ⟨j', hj', hjj⟩
        have : j' = j := by omega
        subst this
        simpa using ih hj'

theorem listFindIdx_mem {k : MeldKey} {l : List MeldKey} (h : k ∈ l) :
    ∃ j, listFindIdx k l = some j ∧ l.get? j = some k := by
  induction l with
  | nil => cases h
  | cons a as ih =>
    by_cases ha : a = k
    · exact ⟨0, by rw [listFindIdx, if_pos ha], by simp [ha]⟩
    · have h' : k ∈ as := by
        rcases List.mem_cons.mp h with h | h
        · exact absurd h.symm ha
        · exact h
      rcases ih h' with ⟨j, hj1, hj2⟩
      exact ⟨j + 1, by rw [listFindIdx, if_neg ha, hj1]; rfl, by simpa using hj2⟩

theorem listFindIdx_isSome_iff {k : MeldKey} {l : List MeldKey} :
    (listFindIdx k l).isSome = true ↔ k ∈ l := by
  constructor
  · intro h
    rcases Option.isSome_iff_exists.mp h with ⟨j, hj⟩
    exact List.get?_mem (listFindIdx_get hj)
  · intro h
    rcases listFindIdx_mem h with ⟨j, hj, _⟩
    simp [hj]

theorem mem_enumFromN {α : Type} {i j : Nat} {x : α} {l : List α} :
    (j, x) ∈ enumFromN i l ↔ i ≤ j ∧ l.get? (j - i) = some x := by
  induction l generalizing i with
  | nil => simp [enumFromN]
  | cons a as ih =>
    rw [enumFromN]
    constructor
    · intro h
      rcases List.mem_cons.mp h with h | h
      · have hj : j = i := congrArg Prod.fst h
        have hx : x = a := congrArg Prod.snd h
        subst hj; subst hx
        simp
      · rcases (ih (i := i + 1)).mp h with ⟨hle, hget⟩
        refine ⟨by omega, ?_⟩
        have : j - i = (j - (i + 1)) + 1 := by omega
        rw [this]
        simpa using hget
    · rintro ⟨hle, hget⟩
      by_cases hj : j = i
      · subst hj
        simp at hget
        cases hget
        exact List.mem_cons_self _ _
      · have hlt : i + 1 ≤ j := by omega
        refine List.mem_cons.mpr (Or.inr ((ih (i := i + 1)).mpr ⟨hlt, ?_⟩))
        have : j - i = (j - (i + 1)) + 1 := by omega
        rw [this] at hget
        simpa using hget

theorem mem_enumL {α : Type} {j : Nat} {x : α} {l : List α} :
    (j, x) ∈ enumL l ↔ l.get? j = some x := by
  rw [enumL, mem_enumFromN]
  simp

theorem enumL_map_snd {α : Type} (l : List α) :
    (enumL l).map Prod.snd = l := by
  suffices h : ∀ i, (enumFromN i l).map Prod.snd = l from h 0
  induction l with
  | nil => intro i; rfl
  | cons a as ih => intro i; simpa [enumFromN] using ih (i + 1)

theorem vmContains_iff {m : VariantMap} {t : Tag} :
    vmContains m t = true ↔ ∃ k, (t, k) ∈ m := by
  rw [vmContains, List.any_eq_true]
  constructor
  · rintro ⟨e, he, heq⟩
    exact ⟨e.2, by rwa [show e = (t, e.2) from by
      rw [Prod.ext_iff]; exact ⟨by simpa using heq, rfl⟩] at he⟩
  · rintro ⟨k, hk⟩
    exact ⟨(t, k), hk, by simp⟩

theorem vmGet_mem {m : VariantMap} {t : Tag} (h : vmContains m t = true) :
    (t, vmGet m t) ∈ m := by
  rw [vmContains, List.any_eq_true] at h
  rcases h with ⟨e, he, heq⟩
  have hfind : ∃ e', m.find? (fun e => e.1 == t) = some e' := by
    have : (m.find? (fun e => e.1 == t)).isSome = true := by
      rw [List.find?_isSome]
      exact ⟨e, he, heq⟩
    exact Option.isSome_iff_exists.mp this
  rcases hfind with ⟨e', he'⟩
  have hmem := List.mem_of_find?_eq_some he'
  have hpred := List.find?_some he'
  have ht : e'.1 = t := by simpa using hpred
  rw [vmGet, he']
  simpa [← ht] using hmem

theorem vmGet_mem_self {m : VariantMap} {e : Tag × MeldKey} (h : e ∈ m) :
    (e.1, vmGet m e.1) ∈ m :=
  vmGet_mem (vmContains_iff.mpr ⟨e.2, by rwa [show (e.1, e.2) = e from rfl]⟩)

theorem mem_vmInsert {m : VariantMap} {t : Tag} {k : MeldKey} {e : Tag × MeldKey} :
    e ∈ vmInsert m t k ↔ e ∈ m ∨ e = (t, k) := by
  simp [vmInsert]

theorem synthMap_sub {a : WorkAsset} {m p : Nat} {e : Tag × MeldKey}
    (h : e ∈ synthMap a m p) :
    e ∈ a.variant_mapping m p ∨
      (e.1 = a.default_tag ∧ (a.primAt m p).material.isSome = true) := by
  rw [synthMap] at h
  split at h
  next ix hm =>
    split at h
    · exact Or.inl h
    · rcases mem_vmInsert.mp h with h' | h'
      · exact Or.inl h'
      · subst h'
        exact Or.inr ⟨rfl, by rw [hm]; rfl⟩
  next hm => exact Or.inl h

theorem sub_synthMap {a : WorkAsset} {m p : Nat} {e : Tag × MeldKey}
    (h : e ∈ a.variant_mapping m p) : e ∈ synthMap a m p := by
  rw [synthMap]
  split
  next ix hm =>
    split
    · exact h
    · exact mem_vmInsert.mpr (Or.inl h)
  next hm => exact h

theorem synthMapAt_sub {a : WorkAsset} {m p q : Nat} {e : Tag × MeldKey}
    (h : e ∈ synthMapAt a m p q) :
    e ∈ a.variant_mapping m p ∨
      (e.1 = a.default_tag ∧ (a.primAt m q).material.isSome = true) := by
  rw [synthMapAt] at h
  split at h
  next ix hm =>
    split at h
    · exact Or.inl h
    · rcases mem_vmInsert.mp h with h' | h'
      · exact Or.inl h'
      · subst h'
        exact Or.inr ⟨rfl, by rw [hm]; rfl⟩
  next hm => exact Or.inl h

theorem sub_synthMapAt {a : WorkAsset} {m p q : Nat} {e : Tag × MeldKey}
    (h : e ∈ a.variant_mapping m p) : e ∈ synthMapAt a m p q := by
  rw [synthMapAt]
  split
  next ix hm =>
    split
    · exact h
    · exact mem_vmInsert.mpr (Or.inl h)
  next hm => exact h

/-! ## C2 — image deduplication through content-derived keys -/

/-- C2: with every image key the digest `h` of the image's raw encoded bytes
(the digest sees nothing else — in particular not the MIME type or any file
path, which differ freely between `imgB` and `imgO` below), two
byte-identical payloads receive the same key, and `meld_in_image` on such a
duplicate returns the base asset *unchanged* together with the existing
image's index: the buffer-view bytes are not copied again, so the melded
blob keeps a single copy. -/
theorem c2_image_dedup (h : List Nat → MeldKey) (base other : WorkAsset)
    (hbase : ∀ i img, base.images.get? i = some img →
      ∃ bytes, base.read_image_bytes img = .ok bytes ∧
        base.image_keys.get? i = some (h bytes))
    (hother : ∀ i img, other.images.get? i = some img →
      ∃ bytes, other.read_image_bytes img = .ok bytes ∧
        other.image_keys.get? i = some (h bytes))
    (i j : Nat) (imgB imgO : Image) (bytes : List Nat)
    (hiB : base.images.get? i = some imgB) (hiO : other.images.get? j = some imgO)
    (hbB : base.read_image_bytes imgB = .ok bytes)
    (hbO : other.read_image_bytes imgO = .ok bytes) :
    buildImageKey h base imgB = .ok (h bytes) ∧
    buildImageKey h other imgO = .ok (h bytes) ∧
    ∃ ix, meld_in_image base other j = some (base, ix) ∧
      base.image_keys.get? ix = some (h bytes) := by
  refine ⟨by rw [buildImageKey, hbB], by rw [buildImageKey, hbO], ?_⟩
  rcases hother j imgO hiO with ⟨bytesO, hbO', hkO⟩
  have hob : bytesO = bytes := by
    rw [hbO'] at hbO
    injection hbO
  rw [hob] at hkO
  rcases hbase i imgB hiB with ⟨bytesB, hbB', hkB⟩
  have hib : bytesB = bytes := by
    rw [hbB'] at hbB
    injection hbB
  rw [hib] at hkB
  have hmem : h bytes ∈ base.image_keys := List.get?_mem hkB
  rcases listFindIdx_mem hmem with ⟨ix, hfind, hget⟩
  refine ⟨ix, ?_, hget⟩
  rw [meld_in_image, hkO]
  simp only [WorkAsset.image_ix, hfind]

/-- Witness for `c2_image_dedup`: the byte-identical 4-byte payload shared by
`cxImgBase` (PNG MIME) and `cxImgOther` (JPEG MIME, with a URI), under the
digest that names it `H`. -/
theorem c2_image_dedup_witness :
    buildImageKey (fun _ => "H") cxImgBase
        { bufferView := some 0, mimeType := some "image/png", uri := none } =
      .ok "H" ∧
    buildImageKey (fun _ => "H") cxImgOther
        { bufferView := some 0, mimeType := some "image/jpeg", uri := some "t.jpg" } =
      .ok "H" ∧
    ∃ ix, meld_in_image cxImgBase cxImgOther 0 = some (cxImgBase, ix) ∧
      cxImgBase.image_keys.get? ix = some "H" :=
  c2_image_dedup (fun _ => "H") cxImgBase cxImgOther
    (by
      intro i img hi
      match i, hi with
      | 0, hi =>
        cases hi
        exact ⟨[1, 2, 3, 4], by decide, by decide⟩
      | i + 1, hi => exact Option.noConfusion hi)
    (by
      intro i img hi
      match i, hi with
      | 0, hi =>
        cases hi
        exact ⟨[1, 2, 3, 4], by decide, by decide⟩
      | i + 1, hi => exact Option.noConfusion hi)
    0 0 _ _ [1, 2, 3, 4] (by decide) (by decide) (by decide) (by decide)


/-! ## The meld helpers only append: `MeldExt` lemmas -/

theorem MeldExt_refl (a : WorkAsset) : MeldExt a a :=
  ⟨rfl, rfl, rfl, rfl, ⟨[], (List.append_nil _).symm⟩, rfl⟩

theorem MeldExt_trans {a b c : WorkAsset} (h1 : MeldExt a b) (h2 : MeldExt b c) :
    MeldExt a c := by
  obtain ⟨m1, k1, d1, f1, ⟨s1, hs1⟩, v1⟩ := h1
  obtain ⟨m2, k2, d2, f2, ⟨s2, hs2⟩, v2⟩ := h2
  exact ⟨m2.trans m1, k2.trans k1, d2.trans d1, f2.trans f1,
    ⟨s1 ++ s2, by rw [hs2, hs1, List.append_assoc]⟩, v2.trans v1⟩

theorem push_buffer_view_ext (a : WorkAsset) (bytes : List Nat) :
    MeldExt a (a.push_buffer_view_from_slice bytes).1 :=
  ⟨rfl, rfl, rfl, rfl, ⟨[], (List.append_nil _).symm⟩, rfl⟩

theorem push_image_ext (a : WorkAsset) (img : Image) (k : MeldKey) :
    MeldExt a (a.push_image img k).1 :=
  ⟨rfl, rfl, rfl, rfl, ⟨[], (List.append_nil _).symm⟩, rfl⟩

theorem push_sampler_ext (a : WorkAsset) (smp : Sampler) (k : MeldKey) :
    MeldExt a (a.push_sampler smp k).1 :=
  ⟨rfl, rfl, rfl, rfl, ⟨[], (List.append_nil _).symm⟩, rfl⟩

theorem push_texture_ext (a : WorkAsset) (tex : Texture) (k : MeldKey) :
    MeldExt a (a.push_texture tex k).1 :=
  ⟨rfl, rfl, rfl, rfl, ⟨[], (List.append_nil _).symm⟩, rfl⟩

theorem push_material_ext (a : WorkAsset) (mat : Material) (k : MeldKey) :
    MeldExt a (a.push_material mat k).1 :=
  ⟨rfl, rfl, rfl, rfl, ⟨[k], rfl⟩, rfl⟩

theorem copy_byte_view_ext {base other : WorkAsset} {ix : Nat} {r : WorkAsset} {j : Nat}
    (h : copy_byte_view base other ix = some (r, j)) : MeldExt base r := by
  rw [copy_byte_view] at h
  split at h
  · exact absurd h (by simp)
  split at h
  · exact absurd h (by simp)
  next slice hslice =>
    injection h with h'
    have hr : (base.push_buffer_view_from_slice slice).1 = r := congrArg Prod.fst h'
    exact hr ▸ push_buffer_view_ext base slice

theorem meld_in_image_ext {base other : WorkAsset} {ix : Nat} {r : WorkAsset} {j : Nat}
    (h : meld_in_image base other ix = some (r, j)) : MeldExt base r := by
  rw [meld_in_image] at h
  split at h
  · exact absurd h (by simp)
  next key hkey =>
    split at h
    · injection h with h'
      have hr : base = r := congrArg Prod.fst h'
      exact hr ▸ MeldExt_refl base
    · split at h
      · exact absurd h (by simp)
      next img himg =>
        split at h
        · exact absurd h (by simp)
        next bv hbv =>
          split at h
          · exact absurd h (by simp)
          next base' newView hcopy =>
            injection h with h'
            have hr : (base'.push_image { img with bufferView := some newView } key).1 = r :=
              congrArg Prod.fst h'
            exact MeldExt_trans (copy_byte_view_ext hcopy)
              (hr ▸ push_image_ext base' { img with bufferView := some newView } key)

theorem meld_in_sampler_ext {base other : WorkAsset} {ix : Nat} {r : WorkAsset} {j : Nat}
    (h : meld_in_sampler base other ix = some (r, j)) : MeldExt base r := by
  rw [meld_in_sampler] at h
  split at h
  · exact absurd h (by simp)
  next key hkey =>
    split at h
    · injection h with h'
      have hr : base = r := congrArg Prod.fst h'
      exact hr ▸ MeldExt_refl base
    · split at h
      · exact absurd h (by simp)
      next smp hsmp =>
        injection h with h'
        have hr : (base.push_sampler smp key).1 = r := congrArg Prod.fst h'
        exact hr ▸ push_sampler_ext base smp key

theorem meld_in_texture_ext {base other : WorkAsset} {ix : Nat} {r : WorkAsset} {j : Nat}
    (h : meld_in_texture base other ix = some (r, j)) : MeldExt base r := by
  rw [meld_in_texture] at h
  split at h
  · exact absurd h (by simp)
  next key hkey =>
    split at h
    · injection h with h'
      have hr : base = r := congrArg Prod.fst h'
      exact hr ▸ MeldExt_refl base
    · split at h
      · exact absurd h (by simp)
      next tex htex =>
        split at h
        · exact absurd h (by simp)
        next base' newSource himg =>
          split at h
          · injection h with h'
            have hr : (base'.push_texture { tex with source := newSource } key).1 = r :=
              congrArg Prod.fst h'
            exact MeldExt_trans (meld_in_image_ext himg)
              (hr ▸ push_texture_ext base' { tex with source := newSource } key)
          next smpIx hsmpix =>
            split at h
            · exact absurd h (by simp)
            next base'' newSampler hsmp =>
              injection h with h'
              have hr : (base''.push_texture
                  { tex with source := newSource, sampler := some newSampler } key).1 = r :=
                congrArg Prod.fst h'
              exact MeldExt_trans (meld_in_image_ext himg)
                (MeldExt_trans (meld_in_sampler_ext hsmp)
                  (hr ▸ push_texture_ext base''
                    { tex with source := newSource, sampler := some newSampler } key))

theorem meldSlotTexInfo_ext {base other : WorkAsset} {info : Option TexInfo}
    {r : WorkAsset} {out : Option TexInfo}
    (h : meldSlotTexInfo base other info = some (r, out)) : MeldExt base r := by
  rw [meldSlotTexInfo.eq_def] at h
  split at h
  · injection h with h'
    have hr : base = r := congrArg Prod.fst h'
    exact hr ▸ MeldExt_refl base
  next i =>
    split at h
    · exact absurd h (by simp)
    next base' ix htex =>
      injection h with h'
      have hr : base' = r := congrArg Prod.fst h'
      exact hr ▸ meld_in_texture_ext htex

theorem meldSlotNormal_ext {base other : WorkAsset} {info : Option NormalTexture}
    {r : WorkAsset} {out : Option NormalTexture}
    (h : meldSlotNormal base other info = some (r, out)) : MeldExt base r := by
  rw [meldSlotNormal.eq_def] at h
  split at h
  · injection h with h'
    have hr : base = r := congrArg Prod.fst h'
    exact hr ▸ MeldExt_refl base
  next i =>
    split at h
    · exact absurd h (by simp)
    next base' ix htex =>
      injection h with h'
      have hr : base' = r := congrArg Prod.fst h'
      exact hr ▸ meld_in_texture_ext htex

theorem meldSlotOcclusion_ext {base other : WorkAsset} {info : Option OcclusionTexture}
    {r : WorkAsset} {out : Option OcclusionTexture}
    (h : meldSlotOcclusion base other info = some (r, out)) : MeldExt base r := by
  rw [meldSlotOcclusion.eq_def] at h
  split at h
  · injection h with h'
    have hr : base = r := congrArg Prod.fst h'
    exact hr ▸ MeldExt_refl base
  next i =>
    split at h
    · exact absurd h (by simp)
    next base' ix htex =>
      injection h with h'
      have hr : base' = r := congrArg Prod.fst h'
      exact hr ▸ meld_in_texture_ext htex

theorem meld_in_material_ext {base other : WorkAsset} {ix : Nat} {r : WorkAsset} {j : Nat}
    (h : meld_in_material base other ix = some (r, j)) : MeldExt base r := by
  rw [meld_in_material] at h
  split at h
  · exact absurd h (by simp)
  next key hkey =>
    split at h
    · injection h with h'
      have hr : base = r := congrArg Prod.fst h'
      exact hr ▸ MeldExt_refl base
    · split at h
      · exact absurd h (by simp)
      next mat hmat =>
        split at h
        · exact absurd h (by simp)
        next b1 newNormal h1 =>
          split at h
          · exact absurd h (by simp)
          next b2 newOcclusion h2 =>
            split at h
            · exact absurd h (by simp)
            next b3 newEmissive h3 =>
              split at h
              · exact absurd h (by simp)
              next b4 newBaseColor h4 =>
                split at h
                · exact absurd h (by simp)
                next b5 newMR h5 =>
                  injection h with h'
                  have hr : (b5.push_material _ key).1 = r := congrArg Prod.fst h'
                  exact MeldExt_trans (meldSlotNormal_ext h1)
                    (MeldExt_trans (meldSlotOcclusion_ext h2)
                      (MeldExt_trans (meldSlotTexInfo_ext h3)
                        (MeldExt_trans (meldSlotTexInfo_ext h4)
                          (MeldExt_trans (meldSlotTexInfo_ext h5)
                            (hr ▸ push_material_ext b5 _ key)))))


/-! ## The meld loops: map bounds and frame conditions -/

theorem meldTagLoop_spec (other : WorkAsset) (bmi pix omi : Nat)
    (base_map other_map : VariantMap) :
    ∀ (entries : List (Tag × MeldKey)) (result : WorkAsset) (rmap : VariantMap)
      (r' : WorkAsset) (rmap' : VariantMap),
      meldTagLoop other bmi pix omi base_map other_map entries result rmap =
        .ok (r', rmap') →
      (∀ e ∈ entries, (e.1, vmGet other_map e.1) ∈ other_map) →
      MeldExt result r' ∧ (∀ e ∈ rmap, e ∈ rmap') ∧
        (∀ e ∈ rmap', e ∈ rmap ∨ e ∈ other_map) := by
  intro entries
  induction entries with
  | nil =>
    intro result rmap r' rmap' hok hent
    rw [meldTagLoop] at hok
    injection hok with h'
    have h1 : result = r' := congrArg Prod.fst h'
    have h2 : rmap = rmap' := congrArg Prod.snd h'
    subst h1; subst h2
    exact ⟨MeldExt_refl _, fun e he => he, fun e he => Or.inl he⟩
  | cons ent rest ih =>
    intro result rmap r' rmap' hok hent
    obtain ⟨tg, kk⟩ := ent
    rw [meldTagLoop] at hok
    split at hok
    · split at hok
      · exact absurd hok (by simp)
      · exact ih result rmap r' rmap' hok
          (fun e he => hent e (List.mem_cons_of_mem _ he))
    · split at hok
      next omix homix =>
        split at hok
        · exact absurd hok (by simp)
        next res1 newix hmeld =>
          rcases ih res1 (vmInsert rmap tg (vmGet other_map tg)) r' rmap' hok
              (fun e he => hent e (List.mem_cons_of_mem _ he)) with ⟨hext, hsub, hbound⟩
          refine ⟨MeldExt_trans (meld_in_material_ext hmeld) hext, ?_, ?_⟩
          · intro e he
            exact hsub e (mem_vmInsert.mpr (Or.inl he))
          · intro e he
            rcases hbound e he with h | h
            · rcases mem_vmInsert.mp h with h' | h'
              · exact Or.inl h'
              · subst h'
                exact Or.inr (hent (tg, kk) (List.mem_cons_self _ _))
            · exact Or.inr h
      · exact absurd hok (by simp)

theorem getD_eq_get?_getD {α : Type} (l : List α) (n : Nat) (d : α) :
    l.getD n d = (l.get? n).getD d := rfl

theorem variant_mapping_def (a : WorkAsset) (m p : Nat) :
    a.variant_mapping m p =
      (((a.mesh_primitive_variants.get? m).getD []).get? p).getD [] := rfl

theorem variant_mapping_setVariant (r : WorkAsset) (bmi p : Nat) (v : VariantMap)
    (m q : Nat) :
    (r.setVariant bmi p v).variant_mapping m q = r.variant_mapping m q ∨
      ((r.setVariant bmi p v).variant_mapping m q = v ∧ m = bmi ∧ q = p) := by
  rw [WorkAsset.setVariant]
  split
  · exact Or.inl rfl
  next row hrow =>
    rcases List.get?_eq_some.mp hrow with ⟨hbl, _⟩
    by_cases hm : m = bmi
    · subst hm
      have h1 : (r.mesh_primitive_variants.set m (row.set p v)).get? m =
          some (row.set p v) := List.get?_set_eq_of_lt _ hbl
      by_cases hq : q = p
      · subst hq
        by_cases hql : q < row.length
        · refine Or.inr ⟨?_, rfl, rfl⟩
          rw [variant_mapping_def, h1]
          simp only [Option.getD_some]
          rw [List.get?_set_eq_of_lt _ hql]
          rfl
        · refine Or.inl ?_
          rw [variant_mapping_def, variant_mapping_def, h1, hrow]
          simp only [Option.getD_some]
          rw [List.get?_eq_none.mpr (by rw [List.length_set]; omega),
            List.get?_eq_none.mpr (by omega)]
      · refine Or.inl ?_
        rw [variant_mapping_def, variant_mapping_def, h1, hrow]
        simp only [Option.getD_some]
        rw [List.get?_set_ne _ _ (fun h => hq h.symm)]
    · refine Or.inl ?_
      rw [variant_mapping_def, variant_mapping_def,
        List.get?_set_ne _ _ (fun h => hm h.symm)]

theorem setVariant_rows_ne (r : WorkAsset) (bmi p : Nat) (v : VariantMap)
    (m : Nat) (hm : m ≠ bmi) :
    (r.setVariant bmi p v).mesh_primitive_variants.get? m =
      r.mesh_primitive_variants.get? m := by
  rw [WorkAsset.setVariant]
  split
  · rfl
  · exact List.get?_set_ne _ _ (fun h => hm h.symm)

theorem MeldExtLoop_refl (a : WorkAsset) : MeldExtLoop a a :=
  ⟨rfl, rfl, rfl, rfl, ⟨[], (List.append_nil _).symm⟩, rfl⟩

theorem MeldExtLoop_trans {a b c : WorkAsset} (h1 : MeldExtLoop a b)
    (h2 : MeldExtLoop b c) : MeldExtLoop a c := by
  obtain ⟨m1, k1, d1, f1, ⟨s1, hs1⟩, v1⟩ := h1
  obtain ⟨m2, k2, d2, f2, ⟨s2, hs2⟩, v2⟩ := h2
  exact ⟨m2.trans m1, k2.trans k1, d2.trans d1, f2.trans f1,
    ⟨s1 ++ s2, by rw [hs2, hs1, List.append_assoc]⟩, v2.trans v1⟩

theorem MeldExt_toLoop {a b : WorkAsset} (h : MeldExt a b) : MeldExtLoop a b := by
  obtain ⟨m1, k1, d1, f1, hk, v1⟩ := h
  exact ⟨m1, k1, d1, f1, hk, by rw [v1]⟩

theorem setVariant_extLoop (r : WorkAsset) (bmi p : Nat) (v : VariantMap) :
    MeldExtLoop r (r.setVariant bmi p v) := by
  rw [WorkAsset.setVariant]
  split
  · exact MeldExtLoop_refl _
  next row hrow =>
    refine ⟨rfl, rfl, rfl, rfl, ⟨[], (List.append_nil _).symm⟩, ?_⟩
    apply List.ext
    intro n
    by_cases hn : n = bmi
    · subst hn
      rw [List.get?_map, List.get?_map]
      rw [List.get?_set_eq_of_lt _ (by
        rcases List.get?_eq_some.mp hrow with ⟨hlt, _⟩
        exact hlt)]
      rw [hrow]
      simp [List.length_set]
    · rw [List.get?_map, List.get?_map, List.get?_set_ne _ _ (fun h => hn h.symm)]


theorem variant_mapping_congr {a b : WorkAsset}
    (h : a.mesh_primitive_variants = b.mesh_primitive_variants) (m p : Nat) :
    a.variant_mapping m p = b.variant_mapping m p := by
  rw [variant_mapping_def, variant_mapping_def, h]

theorem meldPrimLoop_spec (base other : WorkAsset) (bmi omi : Nat) :
    ∀ (ps : List Nat) (result r' : WorkAsset),
      meldPrimLoop base other bmi omi ps result = .ok r' →
      MeldExtLoop result r' ∧
      (∀ m, m ≠ bmi → r'.mesh_primitive_variants.get? m =
        result.mesh_primitive_variants.get? m) ∧
      (MeldUpper base other result → MeldLower base result →
        MeldUpper base other r' ∧ MeldLower base r') := by
  intro ps
  induction ps with
  | nil =>
    intro result r' hok
    rw [meldPrimLoop] at hok
    injection hok with h'
    subst h'
    exact ⟨MeldExtLoop_refl _, fun _ _ => rfl, fun hu hl => ⟨hu, hl⟩⟩
  | cons p rest ih =>
    intro result r' hok
    rw [meldPrimLoop] at hok
    split at hok
    · exact absurd hok (by simp)
    next opx hfind =>
      split at hok
      · exact absurd hok (by simp)
      · exact absurd hok (by simp)
      next res1 rmap1 htag =>
        rcases ih (res1.setVariant bmi p rmap1) r' hok with ⟨hext, hrows, hul⟩
        rcases meldTagLoop_spec other bmi p omi (synthMap base bmi p)
            (synthMapAt other omi p opx) (synthMapAt other omi p opx) result
            (synthMap base bmi p)
            res1 rmap1 htag (fun e he => vmGet_mem_self he) with ⟨hext1, hsub1, hbound1⟩
        have hv1 : res1.mesh_primitive_variants = result.mesh_primitive_variants :=
          hext1.2.2.2.2.2
        refine ⟨?_, ?_, ?_⟩
        · exact MeldExtLoop_trans (MeldExt_toLoop hext1)
            (MeldExtLoop_trans (setVariant_extLoop res1 bmi p rmap1) hext)
        · intro m hm
          rw [hrows m hm, setVariant_rows_ne res1 bmi p rmap1 m hm, hv1]
        · intro hu hl
          have humid : MeldUpper base other (res1.setVariant bmi p rmap1) := by
            intro m q e he
            rcases variant_mapping_setVariant res1 bmi p rmap1 m q with hsame | ⟨hval, hm, hq⟩
            · rw [hsame, variant_mapping_congr hv1 m q] at he
              exact hu m q e he
            · subst hm; subst hq
              rw [hval] at he
              rcases hbound1 e he with h | h
              · exact Or.inl h
              · exact Or.inr ⟨omi, q, opx, h⟩
          have hlmid : MeldLower base (res1.setVariant bmi p rmap1) := by
            intro m q e he
            rcases variant_mapping_setVariant res1 bmi p rmap1 m q with hsame | ⟨hval, hm, hq⟩
            · rw [hsame, variant_mapping_congr hv1 m q]
              exact hl m q e he
            · subst hm; subst hq
              rw [hval]
              exact hsub1 e (sub_synthMap he)
          exact hul humid hlmid

theorem meldMeshLoop_spec (base other : WorkAsset) :
    ∀ (ms : List (Nat × MeldKey)) (result r' : WorkAsset),
      meldMeshLoop base other ms result = .ok r' →
      MeldExtLoop result r' ∧
      (∀ e ∈ ms, ∃ bm, base.mesh_ix e.2 = some bm) ∧
      (∀ m km, base.mesh_keys.get? m = some km → (∀ e ∈ ms, e.2 ≠ km) →
        r'.mesh_primitive_variants.get? m = result.mesh_primitive_variants.get? m) ∧
      (MeldUpper base other result → MeldLower base result →
        MeldUpper base other r' ∧ MeldLower base r') := by
  intro ms
  induction ms with
  | nil =>
    intro result r' hok
    rw [meldMeshLoop] at hok
    injection hok with h'
    subst h'
    exact ⟨MeldExtLoop_refl _, by simp, fun _ _ _ _ => rfl, fun hu hl => ⟨hu, hl⟩⟩
  | cons em rest ih =>
    intro result r' hok
    obtain ⟨omIx, omKey⟩ := em
    rw [meldMeshLoop] at hok
    split at hok
    · exact absurd hok (by simp)
    next bmi hfound =>
      split at hok
      · split at hok
        next res1 hprim =>
          rcases ih res1 r' hok with ⟨hext, hkeys, hrows, hul⟩
          rcases meldPrimLoop_spec base other bmi omIx _ result res1 hprim with
            ⟨hext1, hrows1, hul1⟩
          refine ⟨MeldExtLoop_trans hext1 hext, ?_, ?_, ?_⟩
          · intro e he
            rcases List.mem_cons.mp he with h | h
            · subst h
              exact ⟨bmi, hfound⟩
            · exact hkeys e h
          · intro m km hkm hne
            have hm : m ≠ bmi := by
              intro hEq
              subst hEq
              have hgm := listFindIdx_get hfound
              rw [hkm] at hgm
              injection hgm with h''
              exact hne (omIx, omKey) (List.mem_cons_self _ _) h''.symm
            rw [hrows m km hkm (fun e he => hne e (List.mem_cons_of_mem _ he)),
              hrows1 m hm]
          · intro hu hl
            rcases hul1 hu hl with ⟨hu1, hl1⟩
            exact hul hu1 hl1
        · exact absurd hok (by simp)
        · exact absurd hok (by simp)
      · exact absurd hok (by simp)

theorem meld_spec {A B R : WorkAsset} (hok : WorkAsset.meld A B = .ok R) :
    MeldExtLoop A R ∧ (∀ k ∈ B.mesh_keys, k ∈ A.mesh_keys) ∧
    (∀ m km, A.mesh_keys.get? m = some km → km ∉ B.mesh_keys →
      R.mesh_primitive_variants.get? m = A.mesh_primitive_variants.get? m) ∧
    MeldUpper A B R ∧ MeldLower A R := by
  rw [WorkAsset.meld] at hok
  rcases meldMeshLoop_spec A B (enumL B.mesh_keys) A R hok with ⟨hext, hkeys, hrows, hul⟩
  have hbaseU : MeldUpper A B A := fun m p e he => Or.inl (sub_synthMap he)
  have hbaseL : MeldLower A A := fun _ _ _ he => he
  rcases hul hbaseU hbaseL with ⟨hu, hl⟩
  refine ⟨hext, ?_, ?_, hu, hl⟩
  · intro k hk
    rcases List.mem_iff_get?.mp hk with ⟨i, hi⟩
    rcases hkeys (i, k) (mem_enumL.mpr hi) with ⟨bm, hbm⟩
    exact List.get?_mem (listFindIdx_get hbm)
  · intro m km hkm hnotin
    apply hrows m km hkm
    rintro ⟨j, x⟩ he heq
    apply hnotin
    rw [← heq]
    exact List.get?_mem (mem_enumL.mp he)

/-! ## C9 — the frame of `meld` on unmatched base meshes -/

/-- C9: if `meld(base, other)` succeeds, every mesh key of `other` has a
counterpart in `base` (contrapositive of the required failure), the result's
meshes — their primitives and default material references — are exactly the
base's, and for every base mesh whose key matches no mesh of `other`, the
stored row of per-primitive tag→material maps is carried over unchanged. -/
theorem c9_meld_mesh_frame (A B R : WorkAsset) (hok : WorkAsset.meld A B = .ok R) :
    (∀ k ∈ B.mesh_keys, k ∈ A.mesh_keys) ∧
    R.meshes = A.meshes ∧
    (∀ m km, A.mesh_keys.get? m = some km → km ∉ B.mesh_keys →
      R.mesh_primitive_variants.get? m = A.mesh_primitive_variants.get? m) := by
  rcases meld_spec hok with ⟨⟨hm, _, _, _, _, _⟩, hkeys, hrows, _, _⟩
  exact ⟨hkeys, hm, hrows⟩

/-- Witness for `c9_meld_mesh_frame`: melding `cx9B` (mesh `M` only) into
`cx9A` (meshes `M` and `N`) succeeds and leaves mesh `N` (index 1) and its
variant row untouched. -/
theorem c9_meld_mesh_frame_witness :
    cx9R.meshes = cx9A.meshes ∧
    cx9R.mesh_primitive_variants.get? 1 = cx9A.mesh_primitive_variants.get? 1 :=
  ⟨(c9_meld_mesh_frame cx9A cx9B cx9R (by decide)).2.1,
   (c9_meld_mesh_frame cx9A cx9B cx9R (by decide)).2.2 1 "N" (by decide) (by decide)⟩


/-! ## Export: what ends up in the per-tag key set -/

theorem perTagKeys_accumulate (l : List (Tag × List Nat)) (t : Tag) (mat : Material)
    (u : Tag) :
    u ∈ (perTagAccumulate l t mat).map Prod.fst ↔ u ∈ l.map Prod.fst ∨ u = t := by
  induction l with
  | nil => simp [perTagAccumulate]
  | cons e rest ih =>
    obtain ⟨t', s'⟩ := e
    rw [perTagAccumulate]
    by_cases ht : t' = t
    · rw [if_pos ht]
      subst ht
      simp only [List.map_cons, List.mem_cons]
      tauto
    · rw [if_neg ht]
      simp only [List.map_cons, List.mem_cons]
      rw [ih]
      tauto

theorem perTag_accumulate_material (sz : ImageSizes) (a : WorkAsset) (ix : Nat)
    (b : Bool) :
    (sz.accumulate_material a ix b).per_tag_images = sz.per_tag_images := rfl

theorem perTag_accumulate_tagged (sz : ImageSizes) (a : WorkAsset) (ix : Nat) (t : Tag) :
    (sz.accumulate_tagged_material a ix t).per_tag_images =
      perTagAccumulate sz.per_tag_images t (a.materials.getD ix defaultMaterial) := rfl

theorem perTagKeys_accumulate_pair (sz : ImageSizes) (a : WorkAsset) (ix : Nat)
    (b : Bool) (t : Tag) (u : Tag) :
    u ∈ perTagKeys (((sz.accumulate_material a ix b)).accumulate_tagged_material a ix t) ↔
      u ∈ perTagKeys sz ∨ u = t := by
  rw [perTagKeys, perTag_accumulate_tagged, perTag_accumulate_material]
  exact perTagKeys_accumulate _ _ _ _

theorem exportPrimEntries_spec (a : WorkAsset) (prim : Primitive) :
    ∀ (entries : VariantMap) (t2x : List (Tag × Nat)) (sz : ImageSizes)
      (t2x' : List (Tag × Nat)) (sz' : ImageSizes),
      exportPrimEntries a prim entries t2x sz = .ok (t2x', sz') →
      (∀ u, u ∈ perTagKeys sz' ↔ u ∈ perTagKeys sz ∨
        (u ≠ a.default_tag ∧ ∃ k, (u, k) ∈ entries)) ∧
      (∀ e ∈ entries, e.1 = a.default_tag → prim.material.isSome = true) := by
  intro entries
  induction entries with
  | nil =>
    intro t2x sz t2x' sz' hok
    rw [exportPrimEntries] at hok
    injection hok with h'
    have h2 : sz = sz' := congrArg Prod.snd h'
    subst h2
    exact ⟨fun u => by simp, by simp⟩
  | cons ent rest ih =>
    intro t2x sz t2x' sz' hok
    obtain ⟨tg, mk⟩ := ent
    rw [exportPrimEntries] at hok
    split at hok
    · exact absurd hok (by simp)
    next mix hmix =>
      split at hok
      next htg =>
        split at hok
        next dm hdm =>
          split at hok
          · rcases ih t2x sz t2x' sz' hok with ⟨hiff, hdf⟩
            refine ⟨?_, ?_⟩
            · intro u
              rw [hiff u]
              constructor
              · rintro (h | ⟨hne, k, hk⟩)
                · exact Or.inl h
                · exact Or.inr ⟨hne, k, List.mem_cons_of_mem _ hk⟩
              · rintro (h | ⟨hne, k, hk⟩)
                · exact Or.inl h
                · rcases List.mem_cons.mp hk with h' | h'
                  · exact absurd (htg ▸ congrArg Prod.fst h') hne
                  · exact Or.inr ⟨hne, k, h'⟩
            · intro e he _
              rw [hdm]
              rfl
          · exact absurd hok (by simp)
        · exact absurd hok (by simp)
      next htg =>
        rcases ih _ _ t2x' sz' hok with ⟨hiff, hdf⟩
        refine ⟨?_, ?_⟩
        · intro u
          rw [hiff u, perTagKeys_accumulate_pair]
          constructor
          · rintro ((h | h) | ⟨hne, k, hk⟩)
            · exact Or.inl h
            · subst h
              exact Or.inr ⟨htg, mk, List.mem_cons_self _ _⟩
            · exact Or.inr ⟨hne, k, List.mem_cons_of_mem _ hk⟩
          · rintro (h | ⟨hne, k, hk⟩)
            · exact Or.inl (Or.inl h)
            · rcases List.mem_cons.mp hk with h' | h'
              · exact Or.inl (Or.inr (congrArg Prod.fst h'))
              · exact Or.inr ⟨hne, k, h'⟩
        · intro e he htag
          rcases List.mem_cons.mp he with h' | h'
          · exact absurd ((congrArg Prod.fst h').symm.trans htag) htg
          · exact hdf e h' htag

theorem exportPrimDefault_keys (a : WorkAsset) (prim : Primitive)
    (t2x : List (Tag × Nat)) (sz : ImageSizes) (u : Tag) :
    u ∈ perTagKeys (exportPrimDefault a prim t2x sz).2 ↔
      u ∈ perTagKeys sz ∨ (u = a.default_tag ∧ prim.material.isSome = true) := by
  rw [exportPrimDefault]
  split
  next hdm => simp [hdm]
  next dm hdm =>
    rw [hdm]
    split
    · show u ∈ perTagKeys ((sz.accumulate_material a dm
          (!t2x.isEmpty)).accumulate_tagged_material a dm a.default_tag) ↔ _
      rw [perTagKeys_accumulate_pair]
      simp
    · show u ∈ perTagKeys ((sz.accumulate_material a dm
          (!t2x.isEmpty)).accumulate_tagged_material a dm a.default_tag) ↔ _
      rw [perTagKeys_accumulate_pair]
      simp


theorem exportPrimLoop_spec (a : WorkAsset) (m : Nat) :
    ∀ (prims : List (Nat × Primitive)) (sz sz' : ImageSizes),
      exportPrimLoop a m prims sz = .ok sz' →
      (∀ u, u ∈ perTagKeys sz' ↔ u ∈ perTagKeys sz ∨
        ∃ p prim, (p, prim) ∈ prims ∧
          ((u ≠ a.default_tag ∧ ∃ k, (u, k) ∈ a.variant_mapping m p) ∨
           (u = a.default_tag ∧ prim.material.isSome = true))) ∧
      (∀ p prim, (p, prim) ∈ prims → ∀ e ∈ a.variant_mapping m p,
        e.1 = a.default_tag → prim.material.isSome = true) := by
  intro prims
  induction prims with
  | nil =>
    intro sz sz' hok
    rw [exportPrimLoop] at hok
    injection hok with h'
    subst h'
    exact ⟨fun u => by simp, by simp⟩
  | cons pe rest ih =>
    intro sz sz' hok
    obtain ⟨p, prim⟩ := pe
    rw [exportPrimLoop] at hok
    split at hok
    · exact absurd hok (by simp)
    · exact absurd hok (by simp)
    next t2x sz1 hent =>
      rcases ih (exportPrimDefault a prim t2x sz1).2 sz' hok with ⟨hiff, hdf⟩
      rcases exportPrimEntries_spec a prim (a.variant_mapping m p) [] sz t2x sz1 hent with
        ⟨hiff1, hdf1⟩
      refine ⟨?_, ?_⟩
      · intro u
        rw [hiff u, exportPrimDefault_keys, hiff1 u]
        constructor
        · rintro (((h | ⟨hne, k, hk⟩) | ⟨heq, hm⟩) | ⟨p', prim', hmem, hc⟩)
          · exact Or.inl h
          · exact Or.inr ⟨p, prim, List.mem_cons_self _ _, Or.inl ⟨hne, k, hk⟩⟩
          · exact Or.inr ⟨p, prim, List.mem_cons_self _ _, Or.inr ⟨heq, hm⟩⟩
          · exact Or.inr ⟨p', prim', List.mem_cons_of_mem _ hmem, hc⟩
        · rintro (h | ⟨p', prim', hmem, hc⟩)
          · exact Or.inl (Or.inl (Or.inl h))
          · rcases List.mem_cons.mp hmem with h' | h'
            · have hp : p' = p := congrArg Prod.fst h'
              have hprim : prim' = prim := congrArg Prod.snd h'
              subst hp
              subst hprim
              rcases hc with hc | hc
              · exact Or.inl (Or.inl (Or.inr hc))
              · exact Or.inl (Or.inr hc)
            · exact Or.inr ⟨p', prim', h', hc⟩
      · intro p' prim' hmem e he htag
        rcases List.mem_cons.mp hmem with h' | h'
        · have hp : p' = p := congrArg Prod.fst h'
          have hprim : prim' = prim := congrArg Prod.snd h'
          subst hp
          subst hprim
          exact hdf1 e he htag
        · exact hdf p' prim' h' e he htag

theorem exportMeshLoop_spec (a : WorkAsset) :
    ∀ (ms : List (Nat × Mesh)) (sz sz' : ImageSizes),
      exportMeshLoop a ms sz = .ok sz' →
      (∀ u, u ∈ perTagKeys sz' ↔ u ∈ perTagKeys sz ∨
        ∃ m mesh, (m, mesh) ∈ ms ∧ ∃ p prim, (p, prim) ∈ enumL mesh.primitives ∧
          ((u ≠ a.default_tag ∧ ∃ k, (u, k) ∈ a.variant_mapping m p) ∨
           (u = a.default_tag ∧ prim.material.isSome = true))) ∧
      (∀ m mesh, (m, mesh) ∈ ms → ∀ p prim, (p, prim) ∈ enumL mesh.primitives →
        ∀ e ∈ a.variant_mapping m p, e.1 = a.default_tag →
          prim.material.isSome = true) := by
  intro ms
  induction ms with
  | nil =>
    intro sz sz' hok
    rw [exportMeshLoop] at hok
    injection hok with h'
    subst h'
    exact ⟨fun u => by simp, by simp⟩
  | cons me rest ih =>
    intro sz sz' hok
    obtain ⟨m, mesh⟩ := me
    rw [exportMeshLoop] at hok
    split at hok
    · exact absurd hok (by simp)
    · exact absurd hok (by simp)
    next sz1 hprim =>
      rcases ih sz1 sz' hok with ⟨hiff, hdf⟩
      rcases exportPrimLoop_spec a m (enumL mesh.primitives) sz sz1 hprim with ⟨hiff1, hdf1⟩
      refine ⟨?_, ?_⟩
      · intro u
        rw [hiff u, hiff1 u]
        constructor
        · rintro ((h | ⟨p, prim, hmem, hc⟩) | ⟨m', mesh', hmem', hc'⟩)
          · exact Or.inl h
          · exact Or.inr ⟨m, mesh, List.mem_cons_self _ _, p, prim, hmem, hc⟩
          · exact Or.inr ⟨m', mesh', List.mem_cons_of_mem _ hmem', hc'⟩
        · rintro (h | ⟨m', mesh', hmem', p, prim, hmem, hc⟩)
          · exact Or.inl (Or.inl h)
          · rcases List.mem_cons.mp hmem' with h' | h'
            · have hm : m' = m := congrArg Prod.fst h'
              have hmesh : mesh' = mesh := congrArg Prod.snd h'
              subst hm
              subst hmesh
              exact Or.inl (Or.inr ⟨p, prim, hmem, hc⟩)
            · exact Or.inr ⟨m', mesh', h', p, prim, hmem, hc⟩
      · intro m' mesh' hmem' p prim hmem e he htag
        rcases List.mem_cons.mp hmem' with h' | h'
        · have hm : m' = m := congrArg Prod.fst h'
          have hmesh : mesh' = mesh := congrArg Prod.snd h'
          subst hm
          subst hmesh
          exact hdf1 p prim hmem e he htag
        · exact hdf m' mesh' h' p prim hmem e he htag

theorem sumPerTag_keys (a : WorkAsset) :
    ∀ (l : List (Tag × List Nat)) (pt : List (Tag × Nat)),
      sumPerTag a l = .ok pt → pt.map Prod.fst = l.map Prod.fst := by
  intro l
  induction l with
  | nil =>
    intro pt hok
    rw [sumPerTag] at hok
    injection hok with h'
    subst h'
    rfl
  | cons e rest ih =>
    intro pt hok
    obtain ⟨t, st⟩ := e
    rw [sumPerTag] at hok
    split at hok
    · exact absurd hok (by simp)
    · exact absurd hok (by simp)
    next n hn =>
      split at hok
      · exact absurd hok (by simp)
      · exact absurd hok (by simp)
      next ns hns =>
        injection hok with h'
        subst h'
        simp [ih ns hns]

theorem exportMetadata_tags {a : WorkAsset} {meta : Metadata}
    (hok : exportMetadata a = .ok meta) :
    ∃ sz, exportImageSizes a = .ok sz ∧ ∀ u, (u ∈ meta.tags ↔ u ∈ perTagKeys sz) := by
  rw [exportMetadata] at hok
  split at hok
  · exact absurd hok (by simp)
  · exact absurd hok (by simp)
  next sz hsz =>
    split at hok
    · exact absurd hok (by simp)
    · exact absurd hok (by simp)
    next total htotal =>
      split at hok
      · exact absurd hok (by simp)
      · exact absurd hok (by simp)
      next variational hvar =>
        split at hok
        · exact absurd hok (by simp)
        · exact absurd hok (by simp)
        next per_tag hpt =>
          injection hok with h'
          subst h'
          refine ⟨sz, hsz, fun u => ?_⟩
          show u ∈ per_tag.map Prod.fst ↔ _
          rw [sumPerTag_keys a sz.per_tag_images per_tag hpt]
          exact Iff.rfl

/-- Characterization of the exported tag set: a tag is reported iff it is a
non-default tag carried by some existing primitive's map, or it is the
default tag and some primitive has a default material. -/
theorem exportTags_char {a : WorkAsset} {meta : Metadata}
    (hok : exportMetadata a = .ok meta) (u : Tag) :
    u ∈ meta.tags ↔ (u ≠ a.default_tag ∧ HasVariantTag a u) ∨
      (u = a.default_tag ∧ HasDefaultMaterial a) := by
  rcases exportMetadata_tags hok with ⟨sz, hsz, htags⟩
  rcases exportMeshLoop_spec a (enumL a.meshes) ImageSizes.new sz hsz with ⟨hiff, _⟩
  rw [htags u, hiff u]
  constructor
  · rintro (h | ⟨m, mesh, hmem, p, prim, hpmem, hc⟩)
    · simp [perTagKeys, ImageSizes.new] at h
    · rcases hc with ⟨hne, k, hk⟩ | ⟨heq, hm⟩
      · exact Or.inl ⟨hne, m, p, prim, k, ⟨mesh, mem_enumL.mp hmem, mem_enumL.mp hpmem⟩, hk⟩
      · exact Or.inr ⟨heq, m, p, prim, ⟨mesh, mem_enumL.mp hmem, mem_enumL.mp hpmem⟩, hm⟩
  · rintro (⟨hne, m, p, prim, k, ⟨mesh, hmesh, hprim⟩, hk⟩ | ⟨heq, m, p, prim, ⟨mesh, hmesh, hprim⟩, hm⟩)
    · exact Or.inr ⟨m, mesh, mem_enumL.mpr hmesh, p, prim, mem_enumL.mpr hprim,
        Or.inl ⟨hne, k, hk⟩⟩
    · exact Or.inr ⟨m, mesh, mem_enumL.mpr hmesh, p, prim, mem_enumL.mpr hprim,
        Or.inr ⟨heq, hm⟩⟩

/-- Export succeeds only if every default-tag map entry sits on a primitive
that has a default material. -/
theorem export_default_entry_material {a : WorkAsset} {meta : Metadata}
    (hok : exportMetadata a = .ok meta) :
    ∀ m p prim, PrimSite a m p prim → ∀ e ∈ a.variant_mapping m p,
      e.1 = a.default_tag → prim.material.isSome = true := by
  rcases exportMetadata_tags hok with ⟨sz, hsz, _⟩
  rcases exportMeshLoop_spec a (enumL a.meshes) ImageSizes.new sz hsz with ⟨_, hdf⟩
  rintro m p prim ⟨mesh, hmesh, hprim⟩ e he htag
  exact hdf m mesh (mem_enumL.mpr hmesh) p prim (mem_enumL.mpr hprim) e he htag


/-! ## C1 — the tag set of a meld -/

theorem mem_variant_mapping_site {a : WorkAsset}
    (hdims : a.mesh_primitive_variants.map List.length =
      a.meshes.map (fun mh => mh.primitives.length))
    {m p : Nat} {e : Tag × MeldKey} (he : e ∈ a.variant_mapping m p) :
    ∃ prim, PrimSite a m p prim := by
  rw [variant_mapping_def] at he
  rcases hrow : a.mesh_primitive_variants.get? m with _ | row
  · rw [hrow] at he
    simp at he
  · rw [hrow] at he
    simp only [Option.getD_some] at he
    rcases hcell : row.get? p with _ | cell
    · rw [hcell] at he
      simp at he
    · have hmm : (a.meshes.map (fun mh => mh.primitives.length)).get? m =
          some row.length := by
        rw [← hdims, List.get?_map, hrow]
        rfl
      rw [List.get?_map] at hmm
      rcases hmesh : a.meshes.get? m with _ | mesh
      · rw [hmesh] at hmm
        simp at hmm
      · rw [hmesh] at hmm
        simp only [Option.map_some'] at hmm
        injection hmm with hlen
        rcases List.get?_eq_some.mp hcell with ⟨hpl, _⟩
        have hp : p < mesh.primitives.length := by omega
        exact ⟨mesh.primitives.get ⟨p, hp⟩, mesh, hmesh, List.get?_eq_get hp⟩

theorem primAt_isSome_site {a : WorkAsset} {m p : Nat}
    (h : (a.primAt m p).material.isSome = true) :
    ∃ prim, PrimSite a m p prim ∧ prim.material.isSome = true := by
  rw [WorkAsset.primAt, WorkAsset.meshAt] at h
  simp only [getD_eq_get?_getD] at h
  rcases hmesh : a.meshes.get? m with _ | mesh
  · rw [hmesh] at h
    simp [defaultMesh, defaultPrimitive] at h
  · rw [hmesh] at h
    simp only [Option.getD_some] at h
    rcases hprim : mesh.primitives.get? p with _ | prim
    · rw [hprim] at h
      simp [defaultPrimitive] at h
    · rw [hprim] at h
      simp only [Option.getD_some] at h
      exact ⟨prim, ⟨mesh, hmesh, hprim⟩, h⟩

/-- C1 amended: when `meld(A, B)` succeeds and all three assets export, the
meld's default tag is `A`'s, and the meld's tag set is bounded between
`tags(A)` and `tags(A) ∪ tags(B)`.  (Equality with the union can fail:
explicit tags of `B` are read positionally and always meld in, but `B`'s
*default-tag* entry is synthesized from the material of the
fingerprint-matched primitive, so it is never created when every matched
primitive of `B` lacks a default material — see the counterexample.) -/
theorem c1_meld_tag_bounds (A B R : WorkAsset) (mA mB mR : Metadata)
    (hwfA : WF A) (hwfB : WF B)
    (hok : WorkAsset.meld A B = .ok R)
    (hA : exportMetadata A = .ok mA) (hB : exportMetadata B = .ok mB)
    (hR : exportMetadata R = .ok mR) :
    R.default_tag = A.default_tag ∧
    (∀ t, t ∈ mA.tags → t ∈ mR.tags) ∧
    (∀ t, t ∈ mR.tags → t ∈ mA.tags ∨ t ∈ mB.tags) := by
  rcases meld_spec hok with ⟨⟨hmesh, hkeys, hdflt, hfp, hmk, hvlen⟩, _, _, hup, hlo⟩
  have hdimsB : B.mesh_primitive_variants.map List.length =
      B.meshes.map (fun mh => mh.primitives.length) := hwfB.2.2.2.2.2.1
  refine ⟨hdflt, ?_, ?_⟩
  · intro t ht
    rw [exportTags_char hR t]
    rcases (exportTags_char hA t).mp ht with
      ⟨hne, m, p, prim, k, hsite, hk⟩ | ⟨heq, m, p, prim, hsite, hm⟩
    · refine Or.inl ⟨by rw [hdflt]; exact hne, m, p, prim, k, ?_, hlo m p (t, k) hk⟩
      rcases hsite with ⟨mesh, h1, h2⟩
      exact ⟨mesh, by rw [hmesh]; exact h1, h2⟩
    · refine Or.inr ⟨by rw [hdflt]; exact heq, m, p, prim, ?_, hm⟩
      rcases hsite with ⟨mesh, h1, h2⟩
      exact ⟨mesh, by rw [hmesh]; exact h1, h2⟩
  · intro t ht
    rcases (exportTags_char hR t).mp ht with
      ⟨hne, m, p, prim, k, hsite, hk⟩ | ⟨heq, m, p, prim, hsite, hm⟩
    · have hneA : t ≠ A.default_tag := by
        rw [← hdflt]
        exact hne
      rcases hup m p (t, k) hk with hA' | ⟨om, op, oq, hB'⟩
      · rcases synthMap_sub hA' with hinA | ⟨htag, _⟩
        · left
          rw [exportTags_char hA t]
          refine Or.inl ⟨hneA, m, p, prim, k, ?_, hinA⟩
          rcases hsite with ⟨mesh, h1, h2⟩
          exact ⟨mesh, by rw [← hmesh]; exact h1, h2⟩
        · exact absurd htag hneA
      · rcases synthMapAt_sub hB' with hinB | ⟨htag, hmat⟩
        · rcases mem_variant_mapping_site hdimsB hinB with ⟨prim', hsite'⟩
          by_cases htB : t = B.default_tag
          · have hm' := export_default_entry_material hB om op prim' hsite'
              (t, k) hinB htB
            right
            rw [exportTags_char hB t]
            exact Or.inr ⟨htB, om, op, prim', hsite', hm'⟩
          · right
            rw [exportTags_char hB t]
            exact Or.inl ⟨htB, om, op, prim', k, hsite', hinB⟩
        · rcases primAt_isSome_site hmat with ⟨prim', hsite', hm'⟩
          right
          rw [exportTags_char hB t]
          exact Or.inr ⟨htag, om, oq, prim', hsite', hm'⟩
    · left
      rw [exportTags_char hA t]
      refine Or.inr ⟨by rw [← hdflt]; exact heq, m, p, prim, ?_, hm⟩
      rcases hsite with ⟨mesh, h1, h2⟩
      exact ⟨mesh, by rw [← hmesh]; exact h1, h2⟩

/-- C1 counterexample: two well-formed assets whose meld and exports all
succeed, yet the meld's tag set `{a, x}` misses `b ∈ tags(B) = {x, b}`.
`B`'s explicit tag `x` is read positionally at primitive 1 and melds in, but
`B`'s default-tag entry is synthesized from the material of the
fingerprint-*matched* primitive: both of `A`'s primitives (fingerprints `0`
and `EPS_FINGERPRINT`, exactly `EPS_FINGERPRINT` apart, so construction
accepts them) match `B`'s first primitive (fingerprint
`EPS_FINGERPRINT / 2`), which has no default material, so the entry
`b ↦ KB0` that gives `b ∈ tags(B)` (via `B`'s second primitive's default
material) is never synthesized.  The base's default tag does win, but
`tags(meld(A, B)) ≠ tags(A) ∪ tags(B)`. -/
theorem c1_tag_union_counterexample :
    WF cxA ∧ WF cxB ∧
    WorkAsset.meld cxA cxB = .ok cxR ∧
    exportMetadata cxA = .ok (metaOf cxA) ∧
    exportMetadata cxB = .ok (metaOf cxB) ∧
    exportMetadata cxR = .ok (metaOf cxR) ∧
    cxR.default_tag = cxA.default_tag ∧
    "x" ∈ (metaOf cxR).tags ∧
    "b" ∈ (metaOf cxB).tags ∧ "b" ∉ (metaOf cxR).tags := by
  refine ⟨by decide, by decide, by decide, by decide, by decide, by decide, by decide,
    by decide, by decide, by decide⟩

/-- Witness for `c1_meld_tag_bounds` on the counterexample pair. -/
theorem c1_meld_tag_bounds_witness :
    cxR.default_tag = cxA.default_tag ∧
    "a" ∈ (metaOf cxR).tags ∧
    ("x" ∈ (metaOf cxA).tags ∨ "x" ∈ (metaOf cxB).tags) :=
  ⟨(c1_meld_tag_bounds cxA cxB cxR (metaOf cxA) (metaOf cxB) (metaOf cxR)
      (by decide) (by decide) (by decide) (by decide) (by decide) (by decide)).1,
   (c1_meld_tag_bounds cxA cxB cxR (metaOf cxA) (metaOf cxB) (metaOf cxR)
      (by decide) (by decide) (by decide) (by decide) (by decide) (by decide)).2.1
     "a" (by decide),
   (c1_meld_tag_bounds cxA cxB cxR (metaOf cxA) (metaOf cxB) (metaOf cxR)
      (by decide) (by decide) (by decide) (by decide) (by decide) (by decide)).2.2
     "x" (by decide)⟩


/-! ## C10 — export of an asset with no default materials and no tag maps -/

theorem exportPrimLoop_empty (a : WorkAsset) (m : Nat) :
    ∀ (prims : List (Nat × Primitive)) (sz : ImageSizes),
      (∀ p prim, (p, prim) ∈ prims →
        a.variant_mapping m p = [] ∧ prim.material = none) →
      exportPrimLoop a m prims sz = .ok sz := by
  intro prims
  induction prims with
  | nil => intro sz _; rfl
  | cons pe rest ih =>
    intro sz hall
    obtain ⟨p, prim⟩ := pe
    rcases hall p prim (List.mem_cons_self _ _) with ⟨hmap, hmat⟩
    have h1 : exportPrimEntries a prim (a.variant_mapping m p) [] sz = .ok ([], sz) := by
      rw [hmap]
      rfl
    have h2 : exportPrimDefault a prim [] sz = ([], sz) := by
      rw [exportPrimDefault, hmat]
    rw [exportPrimLoop, h1]
    show exportPrimLoop a m rest (exportPrimDefault a prim [] sz).2 = .ok sz
    rw [h2]
    exact ih sz (fun p' prim' h' => hall p' prim' (List.mem_cons_of_mem _ h'))

theorem exportMeshLoop_empty (a : WorkAsset) :
    ∀ (ms : List (Nat × Mesh)) (sz : ImageSizes),
      (∀ m mesh, (m, mesh) ∈ ms → ∀ p prim, (p, prim) ∈ enumL mesh.primitives →
        a.variant_mapping m p = [] ∧ prim.material = none) →
      exportMeshLoop a ms sz = .ok sz := by
  intro ms
  induction ms with
  | nil => intro sz _; rfl
  | cons me rest ih =>
    intro sz hall
    obtain ⟨m, mesh⟩ := me
    have h1 : exportPrimLoop a m (enumL mesh.primitives) sz = .ok sz :=
      exportPrimLoop_empty a m (enumL mesh.primitives) sz
        (fun p prim hp => hall m mesh (List.mem_cons_self _ _) p prim hp)
    rw [exportMeshLoop, h1]
    exact ih sz (fun m' mesh' h' => hall m' mesh' (List.mem_cons_of_mem _ h'))

/-- C10: if no primitive has a default material and every per-primitive
tag→material map is empty, export succeeds, the metadata's tag set is empty
— in particular it does not contain the asset's default tag — and the
default tag is nonetheless written into the exported root extension slot. -/
theorem c10_empty_variants_export (a : WorkAsset)
    (hmap : ∀ m p, a.variant_mapping m p = [])
    (hmat : ∀ m p prim, PrimSite a m p prim → prim.material = none) :
    exportMetadata a =
      .ok { tags := [], total_sizes := 0, variational_sizes := 0, per_tag_sizes := [] } ∧
    a.default_tag ∉
      ({ tags := [], total_sizes := 0, variational_sizes := 0, per_tag_sizes := [] } : Metadata).tags ∧
    (prepareRoot a).fbRootExtension = some { default_tag := a.default_tag } := by
  have hsz : exportImageSizes a = .ok ImageSizes.new := by
    rw [exportImageSizes]
    apply exportMeshLoop_empty
    intro m mesh hmm p prim hpp
    exact ⟨hmap m p, hmat m p prim ⟨mesh, mem_enumL.mp hmm, mem_enumL.mp hpp⟩⟩
  refine ⟨?_, by simp, rfl⟩
  rw [exportMetadata, hsz]
  rfl

/-- Witness for `c10_empty_variants_export` on the mesh-free asset `cx6`. -/
theorem c10_empty_variants_export_witness :
    exportMetadata cx6 =
      .ok { tags := [], total_sizes := 0, variational_sizes := 0, per_tag_sizes := [] } ∧
    cx6.default_tag ∉
      ({ tags := [], total_sizes := 0, variational_sizes := 0, per_tag_sizes := [] } : Metadata).tags ∧
    (prepareRoot cx6).fbRootExtension = some { default_tag := cx6.default_tag } :=
  c10_empty_variants_export cx6 (fun _ _ => rfl)
    (fun _ _ _ hsite => by
      rcases hsite with ⟨mesh, hm, _⟩
      exact Option.noConfusion hm)

end GVM
